import Mathlib

/-!
Verification of the repository analyzer service (`src/Backend/server/main.py`).

The Python code is shallowly embedded: strings are Lean `String`s operated on
through their underlying `List Char`, Python's stdlib string operations
(`str.lower`, `in`, `startswith`, `endswith`, `splitlines`, `join`, `strip`,
`rstrip`, `replace`, `split`) are modelled by executable Lean functions of the
same semantics, and the two HTTP handlers are modelled as pure functions over
an explicit environment holding the responses of the external collaborators
(the GitHub API and the LLM).  All definitions are executable and structurally
recursive so that concrete inputs evaluate inside the kernel.
-/

/-- Python `str.lower` on a character (ASCII range, which covers every path,
filename table entry and keyword the service compares). -/
def lowerCh (c : Char) : Char := Char.toLower c

/-- Python `str.lower` on the character list of a string. -/
def lowerL (cs : List Char) : List Char := cs.map lowerCh

/-- Python `str.lower`. -/
def pyLower (s : String) : String := String.mk (lowerL s.data)

/-- Python substring test `pat in cs` (scan every suffix for a prefix match). -/
def isSubstr (pat : List Char) : List Char → Bool
  | [] => pat.isEmpty
  | c :: rest => pat.isPrefixOf (c :: rest) || isSubstr pat rest

/-- Python `pat in s` on strings. -/
def strContains (s pat : String) : Bool := isSubstr pat.data s.data

/-- Whitespace as recognized by Python's `str.strip` and the regex class
`\s` (the ASCII members: space, tab, newline, carriage return, vertical tab,
form feed). -/
def isSpaceCh (c : Char) : Bool :=
  c = ' ' || c = '\t' || c = '\n' || c = '\x0d' || c = Char.ofNat 11 || c = Char.ofNat 12

/-- Line break characters recognized by Python `str.splitlines` (the ASCII
and Latin-1 members: LF, CR, VT, FF, FS, GS, RS, NEL; CR LF is treated as a
single break by `splitlinesAux`). -/
def isLineBreakCh (c : Char) : Bool :=
  c = '\n' || c = '\x0d' || c = Char.ofNat 11 || c = Char.ofNat 12 ||
  c = Char.ofNat 28 || c = Char.ofNat 29 || c = Char.ofNat 30 || c = Char.ofNat 133

/-- Worker for Python `str.splitlines`: `acc` holds the current line reversed,
and a CR LF pair counts as a single line break. -/
def splitlinesAux : List Char → List Char → List (List Char)
  | [], acc => if acc.isEmpty then [] else [acc.reverse]
  | [c], acc => if isLineBreakCh c then [acc.reverse] else [(c :: acc).reverse]
  | c :: d :: rest, acc =>
    if c = '\x0d' ∧ d = '\n' then acc.reverse :: splitlinesAux rest []
    else if isLineBreakCh c then acc.reverse :: splitlinesAux (d :: rest) []
    else splitlinesAux (d :: rest) (c :: acc)

/-- Python `str.splitlines` on a character list. -/
def pySplitlines (cs : List Char) : List (List Char) := splitlinesAux cs []

/-- Python `sep.join(parts)`. -/
def joinSep (sep : List Char) : List (List Char) → List Char
  | [] => []
  | [x] => x
  | x :: y :: rest => x ++ sep ++ joinSep sep (y :: rest)

/-- Python truthiness fallback `x or y` on lists (`x` empty means falsy). -/
def pyOrList {α : Type} (x y : List α) : List α := if x.isEmpty then y else x

/-- Python truthiness fallback `x or y` on strings. -/
def pyOrStr (x y : String) : String := if x = "" then y else x

/-- Python `str.strip()` on a character list. -/
def pyStripL (cs : List Char) : List Char :=
  ((cs.dropWhile isSpaceCh).reverse.dropWhile isSpaceCh).reverse

/-- Python `str.strip()`. -/
def pyStrip (s : String) : String := String.mk (pyStripL s.data)

/-- Python `str.rstrip(chars)`: remove trailing characters drawn from `set`. -/
def pyRstripSet (cs : List Char) (set : List Char) : List Char :=
  (cs.reverse.dropWhile (fun c => set.contains c)).reverse

/-- Fuelled worker for Python `str.replace(pat, "")`: remove every
non-overlapping occurrence of `pat`, scanning left to right. -/
def removeAllFuel (pat : List Char) : Nat → List Char → List Char
  | 0, cs => cs
  | _ + 1, [] => []
  | fuel + 1, c :: rest =>
    if pat.isEmpty then c :: rest
    else if pat.isPrefixOf (c :: rest) then removeAllFuel pat fuel (List.drop pat.length (c :: rest))
    else c :: removeAllFuel pat fuel rest

/-- Python `cs.replace(pat, "")` for nonempty `pat`. -/
def removeAll (pat cs : List Char) : List Char := removeAllFuel pat cs.length cs

/-- Worker for Python `str.split(sep)` with a one-character separator. -/
def splitOnChAux (sep : Char) : List Char → List Char → List (List Char)
  | [], acc => [acc.reverse]
  | c :: rest, acc =>
    if c = sep then acc.reverse :: splitOnChAux sep rest []
    else splitOnChAux sep rest (c :: acc)

/-- Python `str.split(sep)` with a one-character separator. -/
def splitOnCh (sep : Char) (cs : List Char) : List (List Char) := splitOnChAux sep cs []

/-! ### Relevance filter (`analyze_repo`, `main.py` lines 175-205) -/

/-- Membership of a (lowercased) path in a table of filenames, modelling
Python `lower_path in table` for a set of string literals. -/
def memTable (table : List String) (p : List Char) : Bool :=
  table.any (fun f => p == f.data)

/-- The `RELEVANT_FILES["common"]` set from `analyze_repo`. -/
def RELEVANT_FILES_common : List String :=
  ["dockerfile", ".docker/dockerfile", "docker-compose.yml",
   "jenkinsfile", ".gitlab-ci.yml", "azure-pipelines.yml",
   ".circleci/config.yml", "readme.md"]

/-- The `RELEVANT_FILES["node"]` set from `analyze_repo`. -/
def RELEVANT_FILES_node : List String :=
  ["package.json", "yarn.lock", "pnpm-lock.yaml", "package-lock.json"]

/-- The `RELEVANT_FILES["python"]` set from `analyze_repo`. -/
def RELEVANT_FILES_python : List String :=
  ["requirements.txt", "pipfile", "pipfile.lock", "pyproject.toml", "poetry.lock"]

/-- The `RELEVANT_FILES["java"]` set from `analyze_repo`. -/
def RELEVANT_FILES_java : List String :=
  ["pom.xml", "build.gradle", "settings.gradle", "gradlew", "gradlew.bat"]

/-- `RELEVANT_FILES.values()` in iteration order of the dict literal. -/
def RELEVANT_FILES_all : List (List String) :=
  [RELEVANT_FILES_common, RELEVANT_FILES_node, RELEVANT_FILES_python, RELEVANT_FILES_java]

/-- The per-path body of the relevance loop of `analyze_repo`, operating on
`lower_path = path.lower()`: membership in the common set, the
`.github/workflows/` + YAML-suffix rule, and the per-ecosystem exact or
`/<name>`-suffix rule (the `for lang_files in RELEVANT_FILES.values()` loop). -/
def isRelevantCore (p : List Char) : Bool :=
  if memTable RELEVANT_FILES_common p then true
  else if ".github/workflows/".data.isPrefixOf p &&
          (".yml".data.isSuffixOf p || ".yaml".data.isSuffixOf p) then true
  else RELEVANT_FILES_all.any
    (fun table => memTable table p || table.any (fun f => ('/' :: f.data).isSuffixOf p))

/-- Relevance of a tree path: the loop body applied to `path.lower()`. -/
def isRelevant (path : String) : Bool := isRelevantCore (lowerL path.data)

/-- The accumulated `relevant_paths` set of `analyze_repo`, modelled as the
subsequence of tree paths that pass the filter, with duplicates collapsed to
their first occurrence (set semantics). -/
def relevant_paths (filePaths : List String) : List String :=
  (filePaths.filter isRelevant).eraseDups

/-! ### Lockfile condenser (`analyze_repo`, `main.py` lines 186-189, 228-234) -/

/-- The `LARGE_FILE_SUFFIXES` tuple from `analyze_repo`. -/
def LARGE_FILE_SUFFIXES : List String :=
  [".lock", "package-lock.json", "yarn.lock", "pnpm-lock.yaml", "poetry.lock"]

/-- The guard `any(filepath.lower().endswith(suffix) for suffix in LARGE_FILE_SUFFIXES)`. -/
def isLargeFile (path : String) : Bool :=
  LARGE_FILE_SUFFIXES.any (fun suffix => suffix.data.isSuffixOf (lowerL path.data))

/-- The per-line filter of the condenser:
`"version" in line.lower() or "@" in line or "resolved" in line.lower()`. -/
def importantLine (line : List Char) : Bool :=
  isSubstr "version".data (lowerL line) || isSubstr "@".data line ||
  isSubstr "resolved".data (lowerL line)

/-- The condensed line list `important_lines[:max_lines] or lines[:max_lines]`
of the lockfile branch. -/
def condensedLines (content : String) (maxLines : Nat) : List (List Char) :=
  let lines := pySplitlines content.data
  let important := lines.filter importantLine
  pyOrList (important.take maxLines) (lines.take maxLines)

/-- The content filter of `analyze_repo`: large lockfiles are condensed with
`"\n".join(important_lines[:max_lines] or lines[:max_lines])`, any other
content passes through unchanged. -/
def condense (path content : String) (maxLines : Nat) : String :=
  if isLargeFile path then String.mk (joinSep "\n".data (condensedLines content maxLines))
  else content

/-! ### Snapshot assembly (`analyze_repo`, `main.py` lines 239-241) -/

/-- One `"File: <path>\n<content>"` block of the snapshot. -/
def snapshotBlock (path content : String) : String :=
  "File: " ++ path ++ "\n" ++ content

/-- The snapshot: blocks joined by a blank line, with the Python `or` fallback
to the fixed placeholder when the joined string is empty. -/
def buildSnapshot (results : List (String × String)) : String :=
  pyOrStr (String.mk (joinSep "\n\n".data (results.map (fun pc => (snapshotBlock pc.1 pc.2).data))))
    "No relevant files found in repository"

/-! ### URL validation and parsing (`main.py` lines 55-63 and 108-111) -/

/-- The character class `[a-zA-Z0-9_.-]` of the repository URL regex. -/
def urlSegCh (c : Char) : Bool := c.isAlpha || c.isDigit || c = '_' || c = '.' || c = '-'

/-- Validity of one owner/repo segment: nonempty and over the allowed class. -/
def validSeg (cs : List Char) : Bool := !cs.isEmpty && cs.all urlSegCh

/-- The test `re.match(r"^https://github\.com/([a-zA-Z0-9_.-]+)/([a-zA-Z0-9_.-]+?)(?:\.git)?$", v)`.
The character class contains `.` but not `/` or `:`, so the pattern matches
exactly the strings `https://github.com/<owner>/<repo>` whose two segments are
nonempty and drawn from the class: the lazy second group together with the
optional `.git` suffix absorbs any such `<repo>` (when `<repo>` ends in `.git`
the group backtracks, otherwise the optional part matches the empty string). -/
def matchesRepoUrl (v : String) : Bool :=
  "https://github.com/".data.isPrefixOf v.data &&
  (match splitOnCh '/' (v.data.drop 19) with
   | [a, b] => validSeg a && validSeg b
   | _ => false)

/-- `RepoAnalysisRequest.validate_github_url`: strip the value, require the
`https://github.com/` prefix, then the regex; returns the stripped value on
success, `none` models the raised `ValueError`. -/
def validate_github_url (v : String) : Option String :=
  let v := pyStrip v
  if !("https://github.com/".data.isPrefixOf v.data) then none
  else if matchesRepoUrl v then some v else none

/-- `parse_owner_repo`: `url.replace("https://github.com/", "").rstrip(".git").split("/")`
followed by indexing `parts[0]` and `parts[1]`; `none` models the `IndexError`
raised when the split has fewer than two parts. -/
def parse_owner_repo (url : String) : Option (String × String) :=
  let parts := splitOnCh '/' (pyRstripSet (removeAll "https://github.com/".data url.data) ".git".data)
  match parts with
  | p0 :: p1 :: _ => some (String.mk p0, String.mk p1)
  | _ => none

/-! ### JSON values, rendering and parsing

The service parses LLM output with `json.loads` and the fence-stripping regex
of `extract_json_from_llm_output`.  JSON values are modelled by the mutual
inductive below; `json.loads` is modelled by a recursive-descent reader over
the same grammar, with two documented simplifications: numbers are restricted
to integers (no floats, `NaN` or `Infinity`), and surrogate pairs in `\u`
escapes are not combined. -/

mutual
inductive Json where
  | null : Json
  | bool (b : Bool) : Json
  | num (n : Int) : Json
  | str (s : String) : Json
  | arr (xs : JItems) : Json
  | obj (kvs : JFields) : Json
inductive JItems where
  | nil : JItems
  | cons (hd : Json) (tl : JItems) : JItems
inductive JFields where
  | nil : JFields
  | cons (k : String) (v : Json) (tl : JFields) : JFields
end

/-- Hexadecimal digit character for `k < 16` (lowercase, as `json.dumps` emits). -/
def hexDigitCh (k : Nat) : Char := if k < 10 then Char.ofNat (48 + k) else Char.ofNat (87 + k)

/-- Decimal digit character for `k < 10`. -/
def digitCh (k : Nat) : Char := Char.ofNat (48 + k)

/-- JSON string escaping of one character, as `json.dumps` renders it:
named escapes for the quote, backslash and common control characters, and a
`\u00xx` escape for the remaining control characters. -/
def escCh (c : Char) : List Char :=
  if c = '"' then ['\\', '"']
  else if c = '\\' then ['\\', '\\']
  else if c = '\n' then ['\\', 'n']
  else if c = '\x0d' then ['\\', 'r']
  else if c = '\t' then ['\\', 't']
  else if c = Char.ofNat 8 then ['\\', 'b']
  else if c = Char.ofNat 12 then ['\\', 'f']
  else if c.toNat < 32 then ['\\', 'u', '0', '0', hexDigitCh (c.toNat / 16), hexDigitCh (c.toNat % 16)]
  else [c]

/-- Rendering of a JSON string literal, quotes included. -/
def renderStr (s : String) : List Char := '"' :: (s.data.flatMap escCh) ++ ['"']

/-- Fuelled rendering of a natural number in decimal (most significant first);
`renderNat` supplies enough fuel. -/
def renderNatFuel : Nat → Nat → List Char
  | 0, _ => []
  | fuel + 1, n => if n < 10 then [digitCh n] else renderNatFuel fuel (n / 10) ++ [digitCh (n % 10)]

/-- Decimal rendering of a natural number. -/
def renderNat (n : Nat) : List Char := renderNatFuel (n + 1) n

/-- Decimal rendering of an integer. -/
def renderInt (i : Int) : List Char :=
  if i < 0 then '-' :: renderNat i.natAbs else renderNat i.natAbs

mutual
/-- Compact text rendering of a JSON value (as `json.dumps` with separators
`","` and `":"` would emit it). -/
def renderJ : Json → List Char
  | .null => "null".data
  | .bool true => "true".data
  | .bool false => "false".data
  | .num n => renderInt n
  | .str s => renderStr s
  | .arr xs => '[' :: renderItems xs ++ [']']
  | .obj kvs => '{' :: renderFields kvs ++ ['}']
/-- Rendering of array elements, comma separated. -/
def renderItems : JItems → List Char
  | .nil => []
  | .cons x .nil => renderJ x
  | .cons x (.cons y tl) => renderJ x ++ ',' :: renderItems (.cons y tl)
/-- Rendering of object members, comma separated. -/
def renderFields : JFields → List Char
  | .nil => []
  | .cons k v .nil => renderStr k ++ ':' :: renderJ v
  | .cons k v (.cons k2 v2 tl) => renderStr k ++ ':' :: renderJ v ++ ',' :: renderFields (.cons k2 v2 tl)
end

/-- Text rendering of a JSON value as a string. -/
def Json.render (j : Json) : String := String.mk (renderJ j)

/-- JSON whitespace accepted by `json.loads` between tokens. -/
def isJWSCh (c : Char) : Bool := c = ' ' || c = '\t' || c = '\n' || c = '\x0d'

/-- Skip JSON whitespace. -/
def skipJWS (cs : List Char) : List Char := cs.dropWhile isJWSCh

/-- Value of one hexadecimal digit character. -/
def hexVal (c : Char) : Option Nat :=
  if '0' ≤ c ∧ c ≤ '9' then some (c.toNat - 48)
  else if 'a' ≤ c ∧ c ≤ 'f' then some (c.toNat - 87)
  else if 'A' ≤ c ∧ c ≤ 'F' then some (c.toNat - 55)
  else none

/-- Decoding of a named escape character in a JSON string literal. -/
def unescCh (c : Char) : Option Char :=
  if c = '"' then some '"'
  else if c = '\\' then some '\\'
  else if c = '/' then some '/'
  else if c = 'b' then some (Char.ofNat 8)
  else if c = 'f' then some (Char.ofNat 12)
  else if c = 'n' then some '\n'
  else if c = 'r' then some '\x0d'
  else if c = 't' then some '\t'
  else none

/-- Decoding of the four hex digits of a `\u` escape into a character. -/
def decodeHex4 (h1 h2 h3 h4 : Char) : Option Char :=
  match hexVal h1, hexVal h2, hexVal h3, hexVal h4 with
  | some v1, some v2, some v3, some v4 =>
    some (Char.ofNat (v1 * 4096 + v2 * 256 + v3 * 16 + v4))
  | _, _, _, _ => none

mutual
/-- Reader for the body of a JSON string literal, positioned after the opening
quote; returns the decoded characters and the input after the closing quote. -/
def parseStrBody : List Char → Option (List Char × List Char)
  | [] => none
  | c :: rest =>
    if c = '"' then some ([], rest)
    else if c = '\\' then parseStrEsc rest
    else (parseStrBody rest).map (fun p => (c :: p.1, p.2))
/-- Reader for the character following a backslash in a string literal. -/
def parseStrEsc : List Char → Option (List Char × List Char)
  | [] => none
  | e :: rest2 =>
    if e = 'u' then parseStrU rest2
    else (unescCh e).bind (fun d => (parseStrBody rest2).map (fun p => (d :: p.1, p.2)))
/-- Reader for the four hex digits of a `\u` escape. -/
def parseStrU : List Char → Option (List Char × List Char)
  | h1 :: h2 :: h3 :: h4 :: rest3 =>
    (decodeHex4 h1 h2 h3 h4).bind
      (fun ch => (parseStrBody rest3).map (fun p => (ch :: p.1, p.2)))
  | _ => none
end

/-- Reader for a run of decimal digits with accumulator. -/
def parseNatLoop : Nat → List Char → Nat × List Char
  | acc, [] => (acc, [])
  | acc, c :: rest =>
    if c.isDigit then parseNatLoop (acc * 10 + (c.toNat - 48)) rest
    else (acc, c :: rest)

mutual
/-- Fuelled recursive-descent reader for one JSON value, modelling
`json.loads` (whitespace-tolerant, strict about structure; integers only). -/
def parseVal : Nat → List Char → Option (Json × List Char)
  | 0, _ => none
  | fuel + 1, cs =>
    match skipJWS cs with
    | [] => none
    | c :: rest =>
      if c = '{' then
        if (skipJWS rest).head? = some '}' then some (.obj .nil, (skipJWS rest).tail)
        else (parseFields fuel (skipJWS rest)).map (fun p => (Json.obj p.1, p.2))
      else if c = '[' then
        if (skipJWS rest).head? = some ']' then some (.arr .nil, (skipJWS rest).tail)
        else (parseItems fuel (skipJWS rest)).map (fun p => (Json.arr p.1, p.2))
      else if c = '"' then
        (parseStrBody rest).map (fun p => (Json.str (String.mk p.1), p.2))
      else if c = 't' then
        if "rue".data.isPrefixOf rest then some (.bool true, rest.drop 3) else none
      else if c = 'f' then
        if "alse".data.isPrefixOf rest then some (.bool false, rest.drop 4) else none
      else if c = 'n' then
        if "ull".data.isPrefixOf rest then some (.null, rest.drop 3) else none
      else if c = '-' then
        rest.head?.bind (fun d =>
          if d.isDigit then
            let p := parseNatLoop 0 rest
            some (Json.num (-(p.1 : Int)), p.2)
          else none)
      else if c.isDigit then
        let p := parseNatLoop 0 (c :: rest)
        some (.num (p.1 : Int), p.2)
      else none
/-- Fuelled reader for the members of a non-empty JSON array, positioned after
`[` (or after a comma); consumes the closing `]`. -/
def parseItems : Nat → List Char → Option (JItems × List Char)
  | 0, _ => none
  | fuel + 1, cs =>
    (parseVal fuel cs).bind (fun vr =>
      if (skipJWS vr.2).head? = some ',' then
        (parseItems fuel (skipJWS vr.2).tail).map (fun p => (JItems.cons vr.1 p.1, p.2))
      else if (skipJWS vr.2).head? = some ']' then some (.cons vr.1 .nil, (skipJWS vr.2).tail)
      else none)
/-- Fuelled reader for the members of a non-empty JSON object, positioned
after `{` (or after a comma); consumes the closing `}`. -/
def parseFields : Nat → List Char → Option (JFields × List Char)
  | 0, _ => none
  | fuel + 1, cs =>
    match skipJWS cs with
    | [] => none
    | c0 :: rest =>
      if c0 = '"' then
        (parseStrBody rest).bind (fun kr =>
          if (skipJWS kr.2).head? = some ':' then
            (parseVal fuel (skipJWS kr.2).tail).bind (fun vr =>
              if (skipJWS vr.2).head? = some ',' then
                (parseFields fuel (skipJWS vr.2).tail).map
                  (fun p => (JFields.cons (String.mk kr.1) vr.1 p.1, p.2))
              else if (skipJWS vr.2).head? = some '}' then
                some (.cons (String.mk kr.1) vr.1 .nil, (skipJWS vr.2).tail)
              else none)
          else none)
      else none
end

/-- `json.loads` on a character list: read one value, then require only
whitespace up to the end of the input. -/
def jsonParseL (cs : List Char) : Option Json :=
  match parseVal (cs.length + 1) cs with
  | some (j, rest) => if (skipJWS rest).isEmpty then some j else none
  | none => none

/-- `json.loads` on a string; `none` models the raised `JSONDecodeError`. -/
def jsonParse (s : String) : Option Json := jsonParseL s.data

/-! ### Fence extraction (`extract_json_from_llm_output`, `main.py` lines 113-121)

The regex is `re.search` of three backticks, an optional `json` tag, `\s*`,
a lazily matched brace group `({.*?})` (DOTALL), `\s*` and three closing
backticks.  Because `{`, `}` and the backtick are not whitespace, the greedy
`\s*` sub-matches are deterministic, and the search is modelled by trying an
anchored match at every start position from the left. -/

/-- Lazy search for the end of the brace group: stop at the first `}` that is
followed by whitespace and three backticks; returns the group content from the
character after `{` through that `}` inclusive. -/
def lazyGroup : List Char → Option (List Char)
  | [] => none
  | c :: rest =>
    if c = '}' && "```".data.isPrefixOf (rest.dropWhile isSpaceCh) then some ['}']
    else (lazyGroup rest).map (fun g => c :: g)

/-- Match of `\s*({.*?})\s*` plus the closing backticks, after the opening
backticks and optional tag. -/
def afterTag (cs : List Char) : Option (List Char) :=
  match cs.dropWhile isSpaceCh with
  | [] => none
  | c :: rest => if c = '{' then (lazyGroup rest).map (fun g => '{' :: g) else none

/-- Anchored match of the whole fence pattern at the start of `cs`; the
optional `json` tag is tried greedily first, with backtracking to the untagged
reading when the tagged one fails. -/
def matchFenceAt (cs : List Char) : Option (List Char) :=
  if "```".data.isPrefixOf cs then
    let r := cs.drop 3
    if "json".data.isPrefixOf r then (afterTag (r.drop 4)).orElse (fun _ => afterTag r)
    else afterTag r
  else none

/-- `re.search`: try the anchored match at every start position, leftmost
match first. -/
def fenceSearch : List Char → Option (List Char)
  | [] => none
  | c :: rest =>
    match matchFenceAt (c :: rest) with
    | some g => some g
    | none => fenceSearch rest

/-- `extract_json_from_llm_output`: take the fenced group if the regex finds
one, otherwise the stripped text, and parse it as JSON; `none` models the
raised `ValueError`. -/
def extract_json_from_llm_output (text : String) : Option Json :=
  let jsonStr := match fenceSearch text.data with
    | some g => g
    | none => pyStripL text.data
  jsonParseL jsonStr

/-- Lookup among object members, first match wins (shadowed duplicates are
unreachable, as in a Python dict produced by `json.loads`). -/
def jGetFields : JFields → String → Option Json
  | .nil, _ => none
  | .cons k v tl, key => if k = key then some v else jGetFields tl key

/-- Lookup `parsed[key]` on a JSON object; `none` models both `KeyError` on a
missing key and `TypeError` on a non-object value. -/
def jGet : Json → String → Option Json
  | .obj kvs, key => jGetFields kvs key
  | _, _ => none

/-! ### Endpoint models

The two POST handlers are modelled as pure functions of the request plus an
environment describing the external collaborators: the status of the GitHub
tree fetch, the blob entries of the returned tree, the per-path outcome of the
content fetches (with `none` covering every skip condition: transport error,
non-200 status, non-file type, base64 or UTF-8 decode failure), and the LLM
response text (`none` modelling an exception while invoking the LLM).  Prompt
construction only feeds the LLM and is absorbed by the environment. -/

structure RepoAnalysisRequest where
  repo_url : String
  branch : String
  github_pat : String
  max_lines : Nat

/-- Pydantic field validation of `RepoAnalysisRequest`: the URL validator,
`branch` length in `[1, 100]`, `github_pat` length at least 40 and `max_lines`
in `[10, 100000]`; the validated request stores the stripped URL the validator
returns. -/
def mkAnalysisRequest (repoUrl branch pat : String) (maxLines : Nat) : Option RepoAnalysisRequest :=
  match validate_github_url repoUrl with
  | none => none
  | some url =>
    if 1 ≤ branch.length ∧ branch.length ≤ 100 then
      if 40 ≤ pat.length then
        if 10 ≤ maxLines ∧ maxLines ≤ 100000 then some ⟨url, branch, pat, maxLines⟩
        else none
      else none
    else none

structure TreeEntry where
  path : String
  type : String

structure AnalyzeEnv where
  treeStatus : Nat
  treeEntries : List TreeEntry
  fileContent : String → Option String
  llmResponse : Option String

/-- The `/analyze` handler body (`analyze_repo`, `main.py` lines 141-280):
owner/repo parsing (400 on failure), the tree status dispatch (401, 404, 502),
then blob filtering, relevance selection, per-file fetching and condensation,
snapshot assembly, and LLM invocation plus JSON extraction (500 on failure).
Errors are `HTTPException(status_code, detail)` pairs. -/
def analyze_repo (request : RepoAnalysisRequest) (env : AnalyzeEnv) : Except (Nat × String) Json :=
  match parse_owner_repo request.repo_url with
  | none => .error (400, "Invalid repo URL")
  | some _ownerRepo =>
    if env.treeStatus = 401 then .error (401, "Invalid or insufficient GitHub token")
    else if env.treeStatus = 404 then .error (404, "Repository or branch not found")
    else if env.treeStatus ≠ 200 then .error (502, "GitHub API returned an error")
    else
      let file_paths := (env.treeEntries.filter (fun e => e.type = "blob")).map (fun e => e.path)
      let relevant := relevant_paths file_paths
      let results := relevant.filterMap
        (fun p => (env.fileContent p).map (fun c => (p, condense p c request.max_lines)))
      let _snapshot := buildSnapshot results
      match env.llmResponse with
      | none => .error (500, "Failed to analyze repository")
      | some txt =>
        match extract_json_from_llm_output txt with
        | none => .error (500, "Failed to analyze repository")
        | some j => .ok j

/-- The `/analyze` endpoint with the framework layer included: FastAPI turns a
pydantic validation failure into an HTTP 422 response before the handler body
runs, so no remote call is made for an invalid request.  The result is the
`(status, detail)` pair of the response (200 with empty detail on success). -/
def analyzeEndpoint (repoUrl branch pat : String) (maxLines : Nat) (env : AnalyzeEnv) : Nat × String :=
  match mkAnalysisRequest repoUrl branch pat maxLines with
  | none => (422, "request validation error")
  | some req =>
    match analyze_repo req env with
    | .error e => e
    | .ok _ => (200, "")

structure TechItem where
  name : String
  version : String

structure ProjectAnalysisInput where
  repo_url : String
  branch : String
  tech_stack : List TechItem
  project_type : String
  runtime_versions : List TechItem

structure PipelineStepInput where
  id : String
  name : String
  description : String
  category : String
  default_command : String
  optional : Bool

structure PipelineGenerationRequest where
  project_analysis : ProjectAnalysisInput
  ci_pipeline_steps : List PipelineStepInput

/-- The response model of `/generate-pipeline`.  Field values are kept as the
JSON values found in the parsed LLM output; pydantic's coercion of those
values to `str` / `List[str]` is outside the model and does not affect the
missing-key error paths. -/
structure GeneratedPipeline where
  github_actions_yaml : Json
  manual_instructions : Json
  suggestions : Json

/-- The `/generate-pipeline` handler (`generate_pipeline`, `main.py` lines
288-370): an LLM invocation failure or a missing key (`KeyError`, reaching the
generic handler) yields 500 "Failed to generate pipeline"; an empty response
or a JSON extraction failure raises `ValueError`, yielding 500 "Failed to
parse pipeline generation response"; otherwise the parsed fields are returned
with `suggestions` defaulting to the empty list. -/
def generate_pipeline (_request : PipelineGenerationRequest) (llmResponse : Option String) :
    Except (Nat × String) GeneratedPipeline :=
  match llmResponse with
  | none => .error (500, "Failed to generate pipeline")
  | some content =>
    if pyStrip content = "" then .error (500, "Failed to parse pipeline generation response")
    else
      match extract_json_from_llm_output content with
      | none => .error (500, "Failed to parse pipeline generation response")
      | some parsed =>
        match jGet parsed "github_actions_yaml", jGet parsed "manual_instructions" with
        | some y, some m => .ok ⟨y, m, (jGet parsed "suggestions").getD (Json.arr .nil)⟩
        | _, _ => .error (500, "Failed to generate pipeline")

/-! ### Fuel measures for the JSON reader -/

mutual
/-- Fuel sufficient for `parseVal` to read the rendering of a value. -/
def fuelV : Json → Nat
  | .null => 1
  | .bool _ => 1
  | .num _ => 1
  | .str _ => 1
  | .arr xs => fuelI xs + 1
  | .obj kvs => fuelF kvs + 1
/-- Fuel sufficient for `parseItems` to read rendered array elements. -/
def fuelI : JItems → Nat
  | .nil => 0
  | .cons v tl => max (fuelV v) (fuelI tl) + 1
/-- Fuel sufficient for `parseFields` to read rendered object members. -/
def fuelF : JFields → Nat
  | .nil => 0
  | .cons _ v tl => max (fuelV v) (fuelF tl) + 1
end

/-! ### Concrete values used by witnesses and counterexamples -/

/-- Wrapping of a text in a Markdown code fence, optionally tagged `json`. -/
def wrapInFence (tagged : Bool) (s : String) : String :=
  (if tagged then "```json\n" else "```\n") ++ s ++ "\n```"

/-- A JSON object whose only string value contains backticks, whitespace and
an unmatched-looking brace pair: `\x7b"a": "``` \x7bb\x7d ```"\x7d`. -/
def jsonCounterexample : Json := .obj (.cons "a" (.str "``` \x7bb\x7d ```") .nil)

/-- A 500-line lockfile content: 3 lines reading `version = 1` followed by 497
lines reading `x`. -/
def lockfile500 : String :=
  String.mk (joinSep "\n".data
    (List.replicate 3 "version = 1".data ++ List.replicate 497 "x".data))

/-- A 40-character token, the minimum length pydantic accepts for the PAT. -/
def patExample : String := "0123456789012345678901234567890123456789"

/-! ## Helper lemmas -/

theorem lowerCh_idem (c : Char) : lowerCh (lowerCh c) = lowerCh c := by
  show Char.toLower (Char.toLower c) = Char.toLower c
  unfold Char.toLower
  by_cases h : c.toNat ≥ 65 ∧ c.toNat ≤ 90
  · rw [if_pos h]
    have hv : Nat.isValidChar (c.toNat + 32) := Or.inl (by omega)
    have ht : (Char.ofNat (c.toNat + 32)).toNat = c.toNat + 32 := by
      unfold Char.ofNat
      rw [dif_pos hv]
      rfl
    rw [if_neg (by omega)]
  · rw [if_neg h, if_neg h]

theorem lowerL_idem (cs : List Char) : lowerL (lowerL cs) = lowerL cs := by
  unfold lowerL
  rw [List.map_map]
  exact List.map_congr_left (fun c _ => lowerCh_idem c)

/-! ## Claim theorems -/

/-- C7: Relevance classification is invariant under lowercasing its input:
`isRelevant(P) = isRelevant(P.lower())` for every path `P`, because the filter
compares only `lower_path = path.lower()` and lowercasing is idempotent. -/
theorem isRelevant_lower_invariant (p : String) :
    isRelevant p = isRelevant (pyLower p) := by
  show isRelevantCore (lowerL p.data) = isRelevantCore (lowerL (String.mk (lowerL p.data)).data)
  rw [show (String.mk (lowerL p.data)).data = lowerL p.data from rfl, lowerL_idem]

/-- C1 counterexample: contrary to the claim, the relevant-path set of the
scenario tree does contain `node_modules/foo/package.json`, because that path
ends with `/package.json` and the per-ecosystem rule accepts a `/<name>`
suffix match at any depth. -/
theorem relevance_scenario_counterexample :
    "node_modules/foo/package.json" ∈ relevant_paths
      ["requirements.txt", "README.md", ".github/workflows/ci.yml",
       "node_modules/foo/package.json"] := by decide

/-- C1 amended: for the scenario tree the relevant-path set contains all four
paths: `requirements.txt`, `README.md` and `.github/workflows/ci.yml` as the
claim states, and also `node_modules/foo/package.json` via the `/<name>`
suffix rule for the node manifest set. -/
theorem relevance_scenario_amended :
    relevant_paths
      ["requirements.txt", "README.md", ".github/workflows/ci.yml",
       "node_modules/foo/package.json"] =
    ["requirements.txt", "README.md", ".github/workflows/ci.yml",
     "node_modules/foo/package.json"] := by decide

/-- Joining a nonempty list of parts starts with the first part. -/
theorem joinSep_cons (sep x : List Char) (l : List (List Char)) :
    ∃ t, joinSep sep (x :: l) = x ++ t := by
  cases l with
  | nil => exact ⟨[], (List.append_nil x).symm⟩
  | cons y rest => exact ⟨sep ++ joinSep sep (y :: rest), by simp [joinSep]⟩

/-- Character data of a snapshot block: it starts with the fixed header. -/
theorem snapshotBlock_data (p c : String) :
    (snapshotBlock p c).data = 'F' :: ("ile: ".data ++ p.data ++ '\n' :: c.data) := by
  show ("File: " ++ p ++ "\n" ++ c).data = _
  simp [String.data_append]

/-- C8: when no file survives, the snapshot is the fixed placeholder string
rather than the empty string; otherwise it is the `"File: <path>\n<content>"`
blocks joined by a blank line. -/
theorem buildSnapshot_spec (results : List (String × String)) :
    (results = [] → buildSnapshot results = "No relevant files found in repository") ∧
    (results ≠ [] → buildSnapshot results =
      String.mk (joinSep "\n\n".data (results.map fun pc => (snapshotBlock pc.1 pc.2).data))) := by
  constructor
  · rintro rfl
    decide
  · intro hne
    obtain ⟨x, l, rfl⟩ := List.exists_cons_of_ne_nil hne
    show pyOrStr _ _ = _
    unfold pyOrStr
    rw [if_neg]
    intro hcontra
    have hdata := congrArg String.data hcontra
    obtain ⟨t, ht⟩ := joinSep_cons "\n\n".data ((snapshotBlock x.1 x.2).data)
      ((l.map fun pc => (snapshotBlock pc.1 pc.2).data))
    rw [show ((x :: l).map fun pc => (snapshotBlock pc.1 pc.2).data) =
          (snapshotBlock x.1 x.2).data :: (l.map fun pc => (snapshotBlock pc.1 pc.2).data)
        from rfl] at hdata
    rw [ht, snapshotBlock_data] at hdata
    simp at hdata

/-- C8 witness: a single surviving file produces its block. -/
theorem buildSnapshot_spec_witness :
    ([(("a.txt" : String), ("hi" : String))] ≠ []) ∧
    buildSnapshot [("a.txt", "hi")] = "File: a.txt\nhi" :=
  ⟨by decide, ((buildSnapshot_spec [("a.txt", "hi")]).2 (by decide)).trans (by decide)⟩

/-- C4: for a lockfile path whose content has no important line, the condensed
output is exactly the first `maxLines` raw lines joined back with newlines. -/
theorem condense_fallback (path content : String) (maxLines : Nat)
    (hlock : isLargeFile path = true)
    (hnone : ∀ l ∈ pySplitlines content.data, importantLine l = false) :
    condense path content maxLines =
      String.mk (joinSep "\n".data ((pySplitlines content.data).take maxLines)) := by
  unfold condense
  rw [if_pos hlock]
  have heq : condensedLines content maxLines =
      pyOrList (((pySplitlines content.data).filter importantLine).take maxLines)
        ((pySplitlines content.data).take maxLines) := rfl
  have hfil : (pySplitlines content.data).filter importantLine = [] :=
    List.filter_eq_nil_iff.mpr (by intro a ha; rw [hnone a ha]; decide)
  rw [heq, hfil, List.take_nil]
  rfl

/-- C4 witness: three plain lines with a cap of two. -/
theorem condense_fallback_witness :
    isLargeFile "yarn.lock" = true ∧
    (∀ l ∈ pySplitlines ("alpha\nbeta\ngamma" : String).data, importantLine l = false) ∧
    condense "yarn.lock" "alpha\nbeta\ngamma" 2 = "alpha\nbeta" :=
  ⟨by decide, by decide,
    (condense_fallback "yarn.lock" "alpha\nbeta\ngamma" 2 (by decide) (by decide)).trans (by decide)⟩

/-- Unfolding of `splitlinesAux` on a cons cell whose head is not CR (so the
CR LF arm cannot fire). -/
theorem splitlinesAux_cons (c : Char) (rest acc : List Char) (hcr : c ≠ '\x0d') :
    splitlinesAux (c :: rest) acc =
      if isLineBreakCh c then acc.reverse :: splitlinesAux rest []
      else splitlinesAux rest (c :: acc) := by
  cases rest with
  | nil =>
    show (if isLineBreakCh c then [acc.reverse] else [(c :: acc).reverse]) = _
    by_cases h : isLineBreakCh c = true
    · rw [if_pos h, if_pos h]
      rfl
    · rw [if_neg h, if_neg h]
      rfl
  | cons d rest2 =>
    show (if c = '\x0d' ∧ d = '\n' then acc.reverse :: splitlinesAux rest2 []
          else if isLineBreakCh c then acc.reverse :: splitlinesAux (d :: rest2) []
          else splitlinesAux (d :: rest2) (c :: acc)) = _
    rw [if_neg (fun hpair => hcr hpair.1)]

/-- A break-free character run is kept as a single (possibly final) line. -/
theorem splitlinesAux_nobreak (x : List Char) (hx : ∀ c ∈ x, isLineBreakCh c = false) :
    ∀ acc : List Char, splitlinesAux x acc =
      if acc.reverse ++ x = [] then [] else [acc.reverse ++ x] := by
  induction x with
  | nil =>
    intro acc
    show (if acc.isEmpty then [] else [acc.reverse]) = _
    by_cases h : acc = []
    · subst h; decide
    · rw [if_neg (by simp [List.isEmpty_iff, h]), List.append_nil, if_neg (by simp [h])]
  | cons c x' IH =>
    intro acc
    have hc : isLineBreakCh c = false := hx c (by simp)
    have hcr : c ≠ '\x0d' := by
      intro h; subst h; revert hc; decide
    rw [splitlinesAux_cons c x' acc hcr, if_neg (by simp [hc]),
        IH (fun d hd => hx d (by simp [hd])) (c :: acc)]
    have h2 : (c :: acc).reverse ++ x' = acc.reverse ++ (c :: x') := by simp
    rw [h2]

/-- Splitting a break-free run followed by a newline yields that run as one
line, then continues. -/
theorem splitlinesAux_break (x : List Char) (hx : ∀ c ∈ x, isLineBreakCh c = false) :
    ∀ (rest acc : List Char),
      splitlinesAux (x ++ '\n' :: rest) acc = (acc.reverse ++ x) :: splitlinesAux rest [] := by
  induction x with
  | nil =>
    intro rest acc
    rw [List.nil_append, splitlinesAux_cons '\n' rest acc (by decide), if_pos (by decide),
        List.append_nil]
  | cons c x' IH =>
    intro rest acc
    have hc : isLineBreakCh c = false := hx c (by simp)
    have hcr : c ≠ '\x0d' := by
      intro h; subst h; revert hc; decide
    rw [List.cons_append, splitlinesAux_cons c (x' ++ '\n' :: rest) acc hcr,
        if_neg (by simp [hc]), IH (fun d hd => hx d (by simp [hd])) rest (c :: acc)]
    simp


/-- Lines produced by the splitlines worker contain no break characters. -/
theorem splitlinesAux_breakfree : ∀ (cs acc : List Char),
    (∀ c ∈ acc, isLineBreakCh c = false) →
    ∀ l ∈ splitlinesAux cs acc, ∀ c ∈ l, isLineBreakCh c = false := by
  intro cs acc
  induction cs, acc using splitlinesAux.induct with
  | case1 acc h =>
    intro hacc l hl
    simp only [splitlinesAux, if_pos h] at hl
    exact absurd hl (List.not_mem_nil l)
  | case2 acc h =>
    intro hacc l hl c hc
    simp only [splitlinesAux, if_neg h] at hl
    rw [List.mem_singleton] at hl
    subst hl
    exact hacc c (List.mem_reverse.mp hc)
  | case3 ch acc h =>
    intro hacc l hl c hc
    simp only [splitlinesAux, if_pos h] at hl
    rw [List.mem_singleton] at hl
    subst hl
    exact hacc c (List.mem_reverse.mp hc)
  | case4 ch acc h =>
    intro hacc l hl c hc
    simp only [splitlinesAux, if_neg h] at hl
    rw [List.mem_singleton] at hl
    subst hl
    rcases List.mem_cons.mp (List.mem_reverse.mp hc) with hc1 | hc2
    · subst hc1
      exact Bool.eq_false_iff.mpr h
    · exact hacc c hc2
  | case5 c d rest acc h IH =>
    intro hacc l hl ch hc
    simp only [splitlinesAux, if_pos h] at hl
    rcases List.mem_cons.mp hl with hl | hl
    · subst hl
      exact hacc ch (List.mem_reverse.mp hc)
    · exact IH (by simp) l hl ch hc
  | case6 c d rest acc h1 h2 IH =>
    intro hacc l hl ch hc
    simp only [splitlinesAux, if_neg h1, if_pos h2] at hl
    rcases List.mem_cons.mp hl with hl | hl
    · subst hl
      exact hacc ch (List.mem_reverse.mp hc)
    · exact IH (by simp) l hl ch hc
  | case7 c d rest acc h1 h2 IH =>
    intro hacc l hl ch hc
    simp only [splitlinesAux, if_neg h1, if_neg h2] at hl
    refine IH ?_ l hl ch hc
    intro e he
    rcases List.mem_cons.mp he with he | he
    · subst he
      exact Bool.eq_false_iff.mpr h2
    · exact hacc e he

/-- Lines of `pySplitlines` contain no break characters. -/
theorem pySplitlines_breakfree (cs : List Char) :
    ∀ l ∈ pySplitlines cs, ∀ c ∈ l, isLineBreakCh c = false :=
  splitlinesAux_breakfree cs [] (by simp)

/-- Joining nonempty break-free lines with newlines and splitting again gives
back the same lines. -/
theorem pySplitlines_joinSep (ls : List (List Char))
    (h : ∀ l ∈ ls, l ≠ [] ∧ ∀ c ∈ l, isLineBreakCh c = false) :
    pySplitlines (joinSep "\n".data ls) = ls := by
  induction ls with
  | nil => decide
  | cons x tl IH =>
    cases tl with
    | nil =>
      show splitlinesAux x [] = [x]
      rw [splitlinesAux_nobreak x (h x (by simp)).2 [], List.reverse_nil, List.nil_append,
          if_neg (h x (by simp)).1]
    | cons y tl2 =>
      show splitlinesAux (x ++ "\n".data ++ joinSep "\n".data (y :: tl2)) [] = x :: y :: tl2
      have hassoc : x ++ "\n".data ++ joinSep "\n".data (y :: tl2)
          = x ++ '\n' :: joinSep "\n".data (y :: tl2) := by simp
      rw [hassoc, splitlinesAux_break x (h x (by simp)).2 _ [], List.reverse_nil,
          List.nil_append]
      exact congrArg (x :: ·) (IH (fun l hl => h l (by simp [hl])))

/-- A line passing the importance filter is nonempty. -/
theorem importantLine_ne_nil (l : List Char) (h : importantLine l = true) : l ≠ [] := by
  intro hl
  subst hl
  revert h
  decide

/-- A line containing `version` (case-insensitively) passes the filter. -/
theorem importantLine_of_version (l : List Char)
    (h : isSubstr "version".data (lowerL l) = true) : importantLine l = true := by
  unfold importantLine
  rw [h]
  rfl

/-- C3: for a lockfile path whose content has at least one line containing
`version` (case-insensitively), the condensed output has at most `maxLines`
lines, every output line passes the version/`@`/resolved filter, and when
`maxLines = 10` and exactly 3 of the 500 content lines pass the filter, the
output has exactly 3 lines. -/
theorem condense_version_bounds (path content : String) (maxLines : Nat)
    (hlock : isLargeFile path = true)
    (hver : ∃ l ∈ pySplitlines content.data, isSubstr "version".data (lowerL l) = true) :
    (pySplitlines (condense path content maxLines).data).length ≤ maxLines ∧
    (∀ l ∈ pySplitlines (condense path content maxLines).data, importantLine l = true) ∧
    (maxLines = 10 → (pySplitlines content.data).length = 500 →
      ((pySplitlines content.data).filter importantLine).length = 3 →
      (pySplitlines (condense path content maxLines).data).length = 3) := by
  obtain ⟨l₀, hl₀mem, hl₀⟩ := hver
  have hl₀imp : importantLine l₀ = true := importantLine_of_version l₀ hl₀
  have himpmem : l₀ ∈ (pySplitlines content.data).filter importantLine :=
    List.mem_filter.mpr ⟨hl₀mem, hl₀imp⟩
  have hdata : (condense path content maxLines).data =
      joinSep "\n".data (condensedLines content maxLines) := by
    unfold condense
    rw [if_pos hlock]
  have hCL : condensedLines content maxLines =
      pyOrList (((pySplitlines content.data).filter importantLine).take maxLines)
        ((pySplitlines content.data).take maxLines) := rfl
  cases maxLines with
  | zero =>
    have hz : condensedLines content 0 = [] := by
      rw [hCL, List.take_zero, List.take_zero]
      rfl
    rw [hdata, hz]
    refine ⟨by decide, by decide, ?_⟩
    intro h10
    exact absurd h10 (by decide)
  | succ m =>
    have htake : (((pySplitlines content.data).filter importantLine).take (m + 1)) ≠ [] := by
      cases hfe : (pySplitlines content.data).filter importantLine with
      | nil =>
        rw [hfe] at himpmem
        exact absurd himpmem (List.not_mem_nil l₀)
      | cons a tl =>
        simp [List.take_succ_cons]
    have hOr : condensedLines content (m + 1) =
        ((pySplitlines content.data).filter importantLine).take (m + 1) := by
      rw [hCL]
      unfold pyOrList
      rw [if_neg (by simpa [List.isEmpty_iff] using htake)]
    have hall : ∀ l ∈ condensedLines content (m + 1), importantLine l = true := by
      intro l hl
      rw [hOr] at hl
      exact (List.mem_filter.mp (List.take_subset _ _ hl)).2
    have hsplit : pySplitlines (joinSep "\n".data (condensedLines content (m + 1))) =
        condensedLines content (m + 1) := by
      apply pySplitlines_joinSep
      intro l hl
      refine ⟨importantLine_ne_nil l (hall l hl), ?_⟩
      have hmem : l ∈ pySplitlines content.data := by
        rw [hOr] at hl
        exact (List.mem_filter.mp (List.take_subset _ _ hl)).1
      exact pySplitlines_breakfree content.data l hmem
    rw [hdata, hsplit]
    refine ⟨?_, hall, ?_⟩
    · rw [hOr]
      exact List.length_take_le _ _
    · intro h10 h500 h3
      rw [hOr, List.take_of_length_le (by rw [h3]; omega)]
      exact h3

set_option maxRecDepth 10000 in
/-- C3 witness: `poetry.lock` with 500 lines of which exactly 3 contain
`version`, cap 10: the condensed output has exactly 3 lines. -/
theorem condense_version_bounds_witness :
    isLargeFile "poetry.lock" = true ∧
    (∃ l ∈ pySplitlines lockfile500.data, isSubstr "version".data (lowerL l) = true) ∧
    (pySplitlines (condense "poetry.lock" lockfile500 10).data).length = 3 :=
  ⟨by decide, by decide,
    (condense_version_bounds "poetry.lock" lockfile500 10 (by decide) (by decide)).2.2
      rfl (by decide) (by decide)⟩

/-- Characterization of `List.isPrefixOf` by an explicit suffix. -/
theorem isPrefixOf_ex : ∀ (p l : List Char), p.isPrefixOf l = true ↔ ∃ t, l = p ++ t := by
  intro p
  induction p with
  | nil =>
    intro l
    simp [List.isPrefixOf]
  | cons a p' IH =>
    intro l
    cases l with
    | nil => simp [List.isPrefixOf]
    | cons b l' =>
      show ((a == b) && p'.isPrefixOf l') = true ↔ _
      rw [Bool.and_eq_true, beq_iff_eq, IH l']
      constructor
      · rintro ⟨hab, t, rfl⟩
        subst hab
        exact ⟨t, rfl⟩
      · rintro ⟨t, ht⟩
        injection ht with h1 h2
        exact ⟨h1.symm, t, h2⟩

/-- A list is a prefix of itself followed by anything. -/
theorem isPrefixOf_append_self (p t : List Char) : p.isPrefixOf (p ++ t) = true :=
  (isPrefixOf_ex p (p ++ t)).mpr ⟨t, rfl⟩

/-- Splitting a failed substring test on a cons cell. -/
theorem isSubstr_cons_false {p : List Char} {c : Char} {rest : List Char}
    (h : isSubstr p (c :: rest) = false) :
    p.isPrefixOf (c :: rest) = false ∧ isSubstr p rest = false := by
  have h2 : (p.isPrefixOf (c :: rest) || isSubstr p rest) = false := h
  exact Bool.or_eq_false_iff.mp h2

/-- A pattern absent from a concatenation is absent from the right part. -/
theorem isSubstr_append_right {p : List Char} : ∀ {a : List Char} (b : List Char),
    isSubstr p (a ++ b) = false → isSubstr p b = false := by
  intro a
  induction a with
  | nil => intro b h; exact h
  | cons c a' IH => intro b h; exact IH b (isSubstr_cons_false h).2

/-- Characters of a matched pattern occur in the searched list. -/
theorem isSubstr_mem {p : List Char} : ∀ {l : List Char},
    isSubstr p l = true → ∀ x ∈ p, x ∈ l := by
  intro l
  induction l with
  | nil =>
    intro h x hx
    have hp : p.isEmpty = true := h
    rw [List.isEmpty_iff.mp hp] at hx
    exact absurd hx (List.not_mem_nil x)
  | cons c rest IH =>
    intro h x hx
    have h2 : (p.isPrefixOf (c :: rest) || isSubstr p rest) = true := h
    rcases Bool.or_eq_true_iff.mp h2 with hp | hs
    · obtain ⟨t, ht⟩ := (isPrefixOf_ex p (c :: rest)).mp hp
      rw [ht]
      exact List.mem_append_left t hx
    · exact List.mem_cons_of_mem c (IH hs x hx)

/-- `removeAllFuel` is the identity when the pattern never occurs. -/
theorem removeAllFuel_no_occ (pat : List Char) : ∀ (fuel : Nat) (cs : List Char),
    isSubstr pat cs = false → removeAllFuel pat fuel cs = cs := by
  intro fuel
  induction fuel with
  | zero => intro cs h; rfl
  | succ f IH =>
    intro cs h
    cases cs with
    | nil => rfl
    | cons c rest =>
      obtain ⟨h1, h2⟩ := isSubstr_cons_false h
      show (if pat.isEmpty then _ else _) = _
      by_cases hp : pat.isEmpty = true
      · rw [if_pos hp]
      · rw [if_neg hp, if_neg (by simp [h1]), IH rest h2]

/-- `str.replace(pat, "")` removes a leading occurrence and keeps a tail in
which the pattern does not occur. -/
theorem removeAll_prefix (pat tail : List Char) (hne : pat ≠ [])
    (htail : isSubstr pat tail = false) : removeAll pat (pat ++ tail) = tail := by
  unfold removeAll
  cases pat with
  | nil => exact absurd rfl hne
  | cons p0 pat' =>
    show removeAllFuel (p0 :: pat') (p0 :: (pat' ++ tail)).length (p0 :: (pat' ++ tail)) = tail
    rw [List.length_cons]
    show (if (p0 :: pat').isEmpty then _ else _) = _
    rw [if_neg (by simp),
        if_pos (show (p0 :: pat').isPrefixOf (p0 :: (pat' ++ tail)) = true from
          isPrefixOf_append_self (p0 :: pat') tail),
        show List.drop (p0 :: pat').length (p0 :: (pat' ++ tail)) = tail from List.drop_left _ _,
        removeAllFuel_no_occ (p0 :: pat') _ tail htail]

/-- `rstrip` of a string containing a `/` outside the strip set stops at the
last segment. -/
theorem pyRstripSet_append (a b set : List Char) (hsep : set.contains '/' = false) :
    pyRstripSet (a ++ '/' :: b) set = a ++ '/' :: pyRstripSet b set := by
  unfold pyRstripSet
  rw [List.reverse_append, List.reverse_cons, List.append_assoc,
      show ['/'] ++ a.reverse = '/' :: a.reverse from rfl, List.dropWhile_append]
  by_cases hb : (List.dropWhile (fun c => set.contains c) b.reverse).isEmpty = true
  · rw [if_pos hb, List.dropWhile_cons_of_neg (by intro hcon; rw [hsep] at hcon; exact Bool.false_ne_true hcon),
        List.isEmpty_iff.mp hb]
    simp
  · rw [if_neg hb]
    simp [List.reverse_append]

/-- Elements of an `rstrip` result come from the original list. -/
theorem mem_pyRstripSet {cs set : List Char} : ∀ c ∈ pyRstripSet cs set, c ∈ cs := by
  intro c hc
  unfold pyRstripSet at hc
  rw [List.mem_reverse] at hc
  have := (List.dropWhile_sublist (fun c => set.contains c) (l := cs.reverse)).subset hc
  exact List.mem_reverse.mp this

/-- `str.split` of a separator-free list is the singleton of that list. -/
theorem splitOnChAux_no_sep (sep : Char) : ∀ (cs acc : List Char),
    (∀ c ∈ cs, c ≠ sep) → splitOnChAux sep cs acc = [acc.reverse ++ cs] := by
  intro cs
  induction cs with
  | nil =>
    intro acc h
    simp [splitOnChAux]
  | cons c rest IH =>
    intro acc h
    show (if c = sep then _ else _) = _
    rw [if_neg (h c (by simp)), IH (c :: acc) (fun d hd => h d (by simp [hd]))]
    simp

/-- `str.split` never returns an empty list of parts. -/
theorem splitOnChAux_ne_nil (sep : Char) : ∀ (cs acc : List Char),
    splitOnChAux sep cs acc ≠ [] := by
  intro cs
  induction cs with
  | nil =>
    intro acc
    simp [splitOnChAux]
  | cons c rest IH =>
    intro acc
    show (if c = sep then _ else _) ≠ []
    by_cases h : c = sep
    · rw [if_pos h]
      simp
    · rw [if_neg h]
      exact IH (c :: acc)

/-- Splitting a two-segment list on its separator. -/
theorem splitOnCh_pair (sep : Char) (a b : List Char) (ha : ∀ c ∈ a, c ≠ sep)
    (hb : ∀ c ∈ b, c ≠ sep) : splitOnCh sep (a ++ sep :: b) = [a, b] := by
  have gen : ∀ (x acc : List Char), (∀ c ∈ x, c ≠ sep) →
      splitOnChAux sep (x ++ sep :: b) acc = (acc.reverse ++ x) :: [b] := by
    intro x
    induction x with
    | nil =>
      intro acc hx
      show (if sep = sep then _ else _) = _
      rw [if_pos rfl, splitOnChAux_no_sep sep b [] hb]
      simp
    | cons c x' IH =>
      intro acc hx
      show (if c = sep then _ else _) = _
      rw [if_neg (hx c (by simp))]
      have := IH (c :: acc) (fun d hd => hx d (by simp [hd]))
      simpa using this
  have hgen := gen a [] ha
  unfold splitOnCh
  rw [hgen]
  simp

/-- Inversion: a singleton split result reassembles the input. -/
theorem splitOnChAux_singleton_inv (sep : Char) : ∀ (cs acc x : List Char),
    splitOnChAux sep cs acc = [x] → acc.reverse ++ cs = x := by
  intro cs
  induction cs with
  | nil =>
    intro acc x h
    have : [acc.reverse] = [x] := h
    simpa using this
  | cons c rest IH =>
    intro acc x h
    by_cases hc : c = sep
    · have h2 : splitOnChAux sep (c :: rest) acc = acc.reverse :: splitOnChAux sep rest [] := by
        show (if c = sep then _ else _) = _
        rw [if_pos hc]
      rw [h2] at h
      have htl : splitOnChAux sep rest [] = [] := by
        have := congrArg List.tail h
        simpa using this
      exact absurd htl (splitOnChAux_ne_nil sep rest [])
    · have h2 : splitOnChAux sep (c :: rest) acc = splitOnChAux sep rest (c :: acc) := by
        show (if c = sep then _ else _) = _
        rw [if_neg hc]
      rw [h2] at h
      have := IH (c :: acc) x h
      simpa using this

/-- Inversion: a two-part split result reassembles the input around one
separator. -/
theorem splitOnChAux_pair_inv (sep : Char) : ∀ (cs acc a b : List Char),
    splitOnChAux sep cs acc = [a, b] → acc.reverse ++ cs = a ++ sep :: b := by
  intro cs
  induction cs with
  | nil =>
    intro acc a b h
    have : [acc.reverse] = [a, b] := h
    simp at this
  | cons c rest IH =>
    intro acc a b h
    by_cases hc : c = sep
    · have h2 : splitOnChAux sep (c :: rest) acc = acc.reverse :: splitOnChAux sep rest [] := by
        show (if c = sep then _ else _) = _
        rw [if_pos hc]
      rw [h2] at h
      have h3 := List.cons_eq_cons.mp h
      obtain ⟨rfl, h4⟩ := h3
      have h5 := splitOnChAux_singleton_inv sep rest [] b h4
      rw [List.reverse_nil, List.nil_append] at h5
      rw [h5, hc]
    · have h2 : splitOnChAux sep (c :: rest) acc = splitOnChAux sep rest (c :: acc) := by
        show (if c = sep then _ else _) = _
        rw [if_neg hc]
      rw [h2] at h
      have := IH (c :: acc) a b h
      simpa using this

/-- Characters of the URL segment class are not slashes. -/
theorem urlSegCh_ne_slash {c : Char} (h : urlSegCh c = true) : c ≠ '/' := by
  intro hc
  subst hc
  revert h
  decide

/-- Characters of the URL segment class are not colons. -/
theorem urlSegCh_ne_colon {c : Char} (h : urlSegCh c = true) : c ≠ ':' := by
  intro hc
  subst hc
  revert h
  decide

/-- Characters of a valid URL segment all belong to the segment class. -/
theorem validSeg_chars {cs : List Char} (h : validSeg cs = true) :
    ∀ c ∈ cs, urlSegCh c = true := by
  have h2 : (!cs.isEmpty && cs.all urlSegCh) = true := h
  rw [Bool.and_eq_true] at h2
  exact fun c hc => List.all_eq_true.mp h2.2 c hc

/-- Every URL accepted by the regex decomposes as prefix, owner segment,
slash and repository segment. -/
theorem matchesRepoUrl_decomp (v : String) (hv : matchesRepoUrl v = true) :
    ∃ a b : List Char, v.data = "https://github.com/".data ++ (a ++ '/' :: b) ∧
      validSeg a = true ∧ validSeg b = true := by
  unfold matchesRepoUrl at hv
  rw [Bool.and_eq_true] at hv
  obtain ⟨hpre, hrest⟩ := hv
  obtain ⟨t, ht⟩ := (isPrefixOf_ex _ _).mp hpre
  have hdrop : v.data.drop 19 = t := by
    rw [ht, show (19 : Nat) = "https://github.com/".data.length from rfl]
    exact List.drop_left _ _
  rw [hdrop] at hrest
  cases hsp : splitOnCh '/' t with
  | nil => exact absurd hsp (splitOnChAux_ne_nil '/' t [])
  | cons x xs =>
    cases xs with
    | nil =>
      rw [hsp] at hrest
      exact absurd hrest (by simp)
    | cons y ys =>
      cases ys with
      | nil =>
        rw [hsp] at hrest
        rw [show ((match [x, y] with
              | [a, b] => validSeg a && validSeg b
              | _ => false) = true) = ((validSeg x && validSeg y) = true) from rfl,
            Bool.and_eq_true] at hrest
        obtain ⟨h1, h2⟩ := hrest
        have ht2 : t = x ++ '/' :: y := by
          have := splitOnChAux_pair_inv '/' t [] x y hsp
          simpa using this
        exact ⟨x, y, by rw [ht, ht2], h1, h2⟩
      | cons z zs =>
        rw [hsp] at hrest
        exact absurd hrest (by simp)

/-- Computation of `parse_owner_repo` on every accepted URL: the owner segment
is returned unchanged and the repository segment is `rstrip`-ped of the
character set of `".git"`. -/
theorem parse_owner_repo_eq (v : String) (hv : matchesRepoUrl v = true) :
    ∃ a b : List Char, v.data = "https://github.com/".data ++ (a ++ '/' :: b) ∧
      validSeg a = true ∧ validSeg b = true ∧
      parse_owner_repo v = some (String.mk a, String.mk (pyRstripSet b ".git".data)) := by
  obtain ⟨a, b, hvdata, hsa, hsb⟩ := matchesRepoUrl_decomp v hv
  refine ⟨a, b, hvdata, hsa, hsb, ?_⟩
  have hnocc : isSubstr "https://github.com/".data (a ++ '/' :: b) = false := by
    by_contra hocc
    have hocc2 : isSubstr "https://github.com/".data (a ++ '/' :: b) = true := by
      revert hocc
      cases isSubstr "https://github.com/".data (a ++ '/' :: b) <;> simp
    have hcolon : ':' ∈ a ++ '/' :: b :=
      isSubstr_mem hocc2 ':' (by decide)
    rcases List.mem_append.mp hcolon with hmem | hmem
    · exact urlSegCh_ne_colon (validSeg_chars hsa ':' hmem) rfl
    · rcases List.mem_cons.mp hmem with hmem2 | hmem2
      · exact absurd hmem2.symm (by decide)
      · exact urlSegCh_ne_colon (validSeg_chars hsb ':' hmem2) rfl
  have hrm : removeAll "https://github.com/".data v.data = a ++ '/' :: b := by
    rw [hvdata]
    exact removeAll_prefix _ _ (by decide) hnocc
  have hstrip : pyRstripSet (a ++ '/' :: b) ".git".data =
      a ++ '/' :: pyRstripSet b ".git".data :=
    pyRstripSet_append a b ".git".data (by decide)
  have hsplit : splitOnCh '/' (a ++ '/' :: pyRstripSet b ".git".data) =
      [a, pyRstripSet b ".git".data] :=
    splitOnCh_pair '/' a (pyRstripSet b ".git".data)
      (fun c hc => urlSegCh_ne_slash (validSeg_chars hsa c hc))
      (fun c hc => urlSegCh_ne_slash (validSeg_chars hsb c (mem_pyRstripSet c hc)))
  unfold parse_owner_repo
  rw [hrm, hstrip, hsplit]

/-- C10: for every URL accepted by the request validator's regex,
`parse_owner_repo` returns the owner segment unchanged, while the repository
segment has every trailing character from the set of `".git"` (i.e. `.`, `g`,
`i`, `t`) removed, `rstrip`-style, not only a literal `.git` suffix. -/
theorem parse_owner_repo_rstrip_spec (v : String) (hv : matchesRepoUrl v = true) :
    ∃ owner repo : String,
      v.data = "https://github.com/".data ++ (owner.data ++ '/' :: repo.data) ∧
      validSeg owner.data = true ∧ validSeg repo.data = true ∧
      parse_owner_repo v = some (owner, String.mk (pyRstripSet repo.data ".git".data)) := by
  obtain ⟨a, b, h1, h2, h3, h4⟩ := parse_owner_repo_eq v hv
  exact ⟨String.mk a, String.mk b, h1, h2, h3, h4⟩

/-- C10 witness: the repository segment `xyzt` (no `.git` suffix present)
loses its trailing `t`. -/
theorem parse_owner_repo_rstrip_spec_witness :
    matchesRepoUrl "https://github.com/abc/xyzt" = true ∧
    (∃ owner repo : String,
      ("https://github.com/abc/xyzt" : String).data =
        "https://github.com/".data ++ (owner.data ++ '/' :: repo.data) ∧
      validSeg owner.data = true ∧ validSeg repo.data = true ∧
      parse_owner_repo "https://github.com/abc/xyzt" =
        some (owner, String.mk (pyRstripSet repo.data ".git".data))) ∧
    parse_owner_repo "https://github.com/abc/xyzt" = some ("abc", "xyz") :=
  ⟨by decide, parse_owner_repo_rstrip_spec "https://github.com/abc/xyzt" (by decide), rfl⟩

/-- C6 counterexample: a request whose URL does not match the GitHub pattern
is rejected with HTTP status 422 (FastAPI's validation error status), not
400 as the claim states. -/
theorem analyze_invalid_url_counterexample :
    validate_github_url "ftp://example.com/a/b" = none ∧
    analyzeEndpoint "ftp://example.com/a/b" "main" patExample 300
      ⟨200, [], fun _ => none, none⟩ = (422, "request validation error") ∧
    (422 : Nat) ≠ 400 :=
  ⟨by decide, by decide, by decide⟩

/-- C6 amended: a request whose URL fails the validator is rejected with HTTP
status 422 before any remote call is made — the response does not depend on
the environment of remote responses at all. -/
theorem analyze_invalid_url_amended (url branch pat : String) (maxLines : Nat)
    (env env' : AnalyzeEnv) (hurl : validate_github_url url = none) :
    analyzeEndpoint url branch pat maxLines env = (422, "request validation error") ∧
    analyzeEndpoint url branch pat maxLines env =
      analyzeEndpoint url branch pat maxLines env' := by
  have hmk : mkAnalysisRequest url branch pat maxLines = none := by
    unfold mkAnalysisRequest
    rw [hurl]
  constructor
  · unfold analyzeEndpoint
    rw [hmk]
  · unfold analyzeEndpoint
    rw [hmk]

/-- C6 amended witness: an `http` URL is rejected with 422 under two
environments that differ in every field. -/
theorem analyze_invalid_url_amended_witness :
    validate_github_url "http://github.com/a/b" = none ∧
    analyzeEndpoint "http://github.com/a/b" "main" patExample 300
      ⟨401, [], fun _ => none, none⟩ = (422, "request validation error") ∧
    analyzeEndpoint "http://github.com/a/b" "main" patExample 300
      ⟨401, [], fun _ => none, none⟩ =
    analyzeEndpoint "http://github.com/a/b" "main" patExample 300
      ⟨200, [], fun _ => some "x", some "y"⟩ :=
  ⟨by decide,
   (analyze_invalid_url_amended "http://github.com/a/b" "main" patExample 300
      ⟨401, [], fun _ => none, none⟩ ⟨200, [], fun _ => some "x", some "y"⟩ (by decide)).1,
   (analyze_invalid_url_amended "http://github.com/a/b" "main" patExample 300
      ⟨401, [], fun _ => none, none⟩ ⟨200, [], fun _ => some "x", some "y"⟩ (by decide)).2⟩

/-- C5: a non-200 tree response is fatal with the status determined by the
response: 401 yields 401 with a detail containing "Invalid or insufficient",
404 yields 404, and any other non-200 status yields 502. -/
theorem analyze_tree_error (req : RepoAnalysisRequest) (env : AnalyzeEnv)
    (hurl : matchesRepoUrl req.repo_url = true) (h200 : env.treeStatus ≠ 200) :
    (env.treeStatus = 401 →
      analyze_repo req env = .error (401, "Invalid or insufficient GitHub token") ∧
      strContains "Invalid or insufficient GitHub token" "Invalid or insufficient" = true) ∧
    (env.treeStatus = 404 →
      analyze_repo req env = .error (404, "Repository or branch not found")) ∧
    (env.treeStatus ≠ 401 → env.treeStatus ≠ 404 →
      analyze_repo req env = .error (502, "GitHub API returned an error")) := by
  obtain ⟨a, b, _, _, _, hparse⟩ := parse_owner_repo_eq req.repo_url hurl
  have hstep : analyze_repo req env =
      if env.treeStatus = 401 then .error (401, "Invalid or insufficient GitHub token")
      else if env.treeStatus = 404 then .error (404, "Repository or branch not found")
      else if env.treeStatus ≠ 200 then .error (502, "GitHub API returned an error")
      else (match env.llmResponse with
            | none => .error (500, "Failed to analyze repository")
            | some txt =>
              match extract_json_from_llm_output txt with
              | none => .error (500, "Failed to analyze repository")
              | some j => .ok j) := by
    unfold analyze_repo
    rw [hparse]
  refine ⟨?_, ?_, ?_⟩
  · intro h401
    exact ⟨by rw [hstep, if_pos h401], by decide⟩
  · intro h404
    rw [hstep, if_neg (by omega), if_pos h404]
  · intro hn401 hn404
    rw [hstep, if_neg hn401, if_neg hn404, if_pos h200]

/-- C5 witness: a valid request against a tree fetch answering 401. -/
theorem analyze_tree_error_witness :
    matchesRepoUrl "https://github.com/psf/requests" = true ∧
    ((⟨401, [], fun _ => none, none⟩ : AnalyzeEnv).treeStatus ≠ 200) ∧
    analyze_repo ⟨"https://github.com/psf/requests", "main", patExample, 300⟩
      ⟨401, [], fun _ => none, none⟩ =
      .error (401, "Invalid or insufficient GitHub token") :=
  ⟨by decide, by decide,
   ((analyze_tree_error ⟨"https://github.com/psf/requests", "main", patExample, 300⟩
      ⟨401, [], fun _ => none, none⟩ (by decide) (by decide)).1 rfl).1⟩

/-- C9: `/generate-pipeline` returns HTTP 500 and no partial result whenever
the LLM response text is empty after stripping, is not recoverable as JSON,
or parses to a value missing the key `github_actions_yaml` or the key
`manual_instructions`; missing keys are never defaulted. -/
theorem generate_pipeline_errors (req : PipelineGenerationRequest) (t : String)
    (h : pyStrip t = "" ∨ extract_json_from_llm_output t = none ∨
         (∃ j, extract_json_from_llm_output t = some j ∧
           (jGet j "github_actions_yaml" = none ∨ jGet j "manual_instructions" = none))) :
    ∃ detail, generate_pipeline req (some t) = .error (500, detail) := by
  have hstep : generate_pipeline req (some t) =
      (if pyStrip t = "" then Except.error (500, "Failed to parse pipeline generation response")
       else match extract_json_from_llm_output t with
         | none => .error (500, "Failed to parse pipeline generation response")
         | some parsed =>
           match jGet parsed "github_actions_yaml", jGet parsed "manual_instructions" with
           | some y, some m => Except.ok ⟨y, m, (jGet parsed "suggestions").getD (Json.arr .nil)⟩
           | _, _ => .error (500, "Failed to generate pipeline")) := rfl
  by_cases hempty : pyStrip t = ""
  · exact ⟨"Failed to parse pipeline generation response", by rw [hstep, if_pos hempty]⟩
  · rcases h with h | h | h
    · exact absurd h hempty
    · exact ⟨"Failed to parse pipeline generation response", by rw [hstep, if_neg hempty, h]⟩
    · obtain ⟨j, hj, hkey⟩ := h
      refine ⟨"Failed to generate pipeline", ?_⟩
      rw [hstep, if_neg hempty, hj]
      show (match jGet j "github_actions_yaml", jGet j "manual_instructions" with
            | some y, some m =>
              Except.ok (GeneratedPipeline.mk y m ((jGet j "suggestions").getD (Json.arr .nil)))
            | _, _ => Except.error (500, "Failed to generate pipeline")) =
          Except.error (500, "Failed to generate pipeline")
      rcases hkey with hk | hk
      · rw [hk]
      · rw [hk]
        cases hy : jGet j "github_actions_yaml" with
        | none => rfl
        | some y => rfl

/-- C9 witness: a free-text LLM answer is not recoverable as JSON and yields a
500 error. -/
theorem generate_pipeline_errors_witness :
    (pyStrip "The model cannot answer." = "" ∨
     extract_json_from_llm_output "The model cannot answer." = none ∨
     (∃ j, extract_json_from_llm_output "The model cannot answer." = some j ∧
       (jGet j "github_actions_yaml" = none ∨ jGet j "manual_instructions" = none))) ∧
    (∃ detail, generate_pipeline ⟨⟨"u", "b", [], "t", []⟩, []⟩
      (some "The model cannot answer.") = .error (500, detail)) :=
  ⟨Or.inr (Or.inl rfl),
   generate_pipeline_errors ⟨⟨"u", "b", [], "t", []⟩, []⟩ "The model cannot answer."
     (Or.inr (Or.inl rfl))⟩

/-- Unfolding of the decimal renderer at positive fuel. -/
theorem renderNatFuel_succ (f n : Nat) : renderNatFuel (f + 1) n =
    if n < 10 then [digitCh n] else renderNatFuel f (n / 10) ++ [digitCh (n % 10)] := rfl

/-- Digit characters are recognized by `Char.isDigit`. -/
theorem digitCh_isDigit (k : Nat) (h : k < 10) : (digitCh k).isDigit = true := by
  have hall : ∀ m, m < 10 → (digitCh m).isDigit = true := by decide
  exact hall k h

/-- The numeric value of a digit character. -/
theorem digitCh_val (k : Nat) (h : k < 10) : (digitCh k).toNat - 48 = k := by
  have hall : ∀ m, m < 10 → (digitCh m).toNat - 48 = m := by decide
  exact hall k h

/-- Digit characters are none of the JSON structure or keyword heads and are
not whitespace. -/
theorem digitCh_ne (k : Nat) (h : k < 10) :
    isJWSCh (digitCh k) = false ∧ isSpaceCh (digitCh k) = false ∧
    digitCh k ≠ '{' ∧ digitCh k ≠ '[' ∧ digitCh k ≠ '"' ∧ digitCh k ≠ 't' ∧
    digitCh k ≠ 'f' ∧ digitCh k ≠ 'n' ∧ digitCh k ≠ '-' ∧
    digitCh k ≠ '}' ∧ digitCh k ≠ ']' ∧ digitCh k ≠ ',' ∧ digitCh k ≠ ':' := by
  have hall : ∀ m, m < 10 →
      isJWSCh (digitCh m) = false ∧ isSpaceCh (digitCh m) = false ∧
      digitCh m ≠ '{' ∧ digitCh m ≠ '[' ∧ digitCh m ≠ '"' ∧ digitCh m ≠ 't' ∧
      digitCh m ≠ 'f' ∧ digitCh m ≠ 'n' ∧ digitCh m ≠ '-' ∧
      digitCh m ≠ '}' ∧ digitCh m ≠ ']' ∧ digitCh m ≠ ',' ∧ digitCh m ≠ ':' := by decide
  exact hall k h

/-- The decimal renderer emits only digit characters. -/
theorem renderNatFuel_digits : ∀ (fuel n : Nat), ∀ c ∈ renderNatFuel fuel n,
    ∃ k, k < 10 ∧ c = digitCh k := by
  intro fuel
  induction fuel with
  | zero => intro n c hc; exact absurd hc (List.not_mem_nil c)
  | succ f IH =>
    intro n c hc
    by_cases hn : n < 10
    · rw [renderNatFuel_succ, if_pos hn] at hc
      rw [List.mem_singleton] at hc
      exact ⟨n, hn, hc⟩
    · rw [renderNatFuel_succ, if_neg hn] at hc
      rcases List.mem_append.mp hc with hm | hm
      · exact IH (n / 10) c hm
      · rw [List.mem_singleton] at hm
        exact ⟨n % 10, Nat.mod_lt n (by omega), hm⟩

/-- The decimal renderer with positive fuel is nonempty. -/
theorem renderNatFuel_ne_nil (f n : Nat) : renderNatFuel (f + 1) n ≠ [] := by
  rw [renderNatFuel_succ]
  by_cases hn : n < 10
  · rw [if_pos hn]
    simp
  · rw [if_neg hn]
    simp

/-- Folding the rendered digits recovers the number. -/
theorem renderNatFuel_val : ∀ (fuel n : Nat), n < 10 ^ fuel →
    (renderNatFuel fuel n).foldl (fun a c => a * 10 + (c.toNat - 48)) 0 = n := by
  intro fuel
  induction fuel with
  | zero =>
    intro n hn
    have hn0 : n = 0 := by simpa using hn
    subst hn0
    rfl
  | succ f IH =>
    intro n hn
    by_cases h10 : n < 10
    · rw [renderNatFuel_succ, if_pos h10]
      show 0 * 10 + ((digitCh n).toNat - 48) = n
      rw [digitCh_val n h10]
      omega
    · rw [renderNatFuel_succ, if_neg h10, List.foldl_append]
      have hdiv : n / 10 < 10 ^ f := by
        have hp : 10 ^ (f + 1) = 10 ^ f * 10 := Nat.pow_succ ..
        exact (Nat.div_lt_iff_lt_mul (by omega)).mpr (by omega)
      rw [IH (n / 10) hdiv]
      show n / 10 * 10 + ((digitCh (n % 10)).toNat - 48) = n
      rw [digitCh_val (n % 10) (Nat.mod_lt n (by omega))]
      omega

/-- The decimal rendering of a natural number is nonempty. -/
theorem renderNat_ne_nil (n : Nat) : renderNat n ≠ [] := renderNatFuel_ne_nil n n

/-- The default fuel suffices for the decimal renderer. -/
theorem lt_pow_succ_ten (n : Nat) : n < 10 ^ (n + 1) :=
  lt_of_lt_of_le (Nat.lt_pow_self (by omega) n)
    (Nat.pow_le_pow_right (by omega) (by omega))

/-- Folding the decimal rendering of `n` recovers `n`. -/
theorem renderNat_val (n : Nat) :
    (renderNat n).foldl (fun a c => a * 10 + (c.toNat - 48)) 0 = n :=
  renderNatFuel_val (n + 1) n (lt_pow_succ_ten n)

/-- The decimal rendering starts with a digit character. -/
theorem renderNat_cons (n : Nat) : ∃ k tl, k < 10 ∧ renderNat n = digitCh k :: tl := by
  cases hr : renderNat n with
  | nil => exact absurd hr (renderNat_ne_nil n)
  | cons c tl =>
    obtain ⟨k, hk, hck⟩ := renderNatFuel_digits (n + 1) n c (by
      rw [show renderNatFuel (n + 1) n = renderNat n from rfl, hr]
      simp)
    subst hck
    exact ⟨k, tl, hk, rfl⟩

/-- Reading digits followed by a non-digit boundary folds them into a value. -/
theorem parseNatLoop_append : ∀ (ds : List Char), (∀ c ∈ ds, c.isDigit = true) →
    ∀ (acc : Nat) (rest : List Char), (∀ c ∈ rest.head?, c.isDigit = false) →
    parseNatLoop acc (ds ++ rest) =
      (ds.foldl (fun a c => a * 10 + (c.toNat - 48)) acc, rest) := by
  intro ds
  induction ds with
  | nil =>
    intro _ acc rest hrest
    cases rest with
    | nil => rfl
    | cons c r =>
      show (if c.isDigit then _ else _) = _
      rw [if_neg (by simp [hrest c (by simp)])]
      rfl
  | cons d ds' IH =>
    intro hds acc rest hrest
    show (if d.isDigit then _ else _) = _
    rw [if_pos (hds d (by simp))]
    have hih := IH (fun c hc => hds c (by simp [hc])) (acc * 10 + (d.toNat - 48)) rest hrest
    simpa using hih

/-- Reading the decimal rendering of `n` at a non-digit boundary yields `n`. -/
theorem parseNat_renderNat (n : Nat) (rest : List Char)
    (hrest : ∀ c ∈ rest.head?, c.isDigit = false) :
    parseNatLoop 0 (renderNat n ++ rest) = (n, rest) := by
  rw [parseNatLoop_append (renderNat n)
      (fun c hc => by
        obtain ⟨k, hk, hck⟩ := renderNatFuel_digits (n + 1) n c hc
        subst hck
        exact digitCh_isDigit k hk)
      0 rest hrest,
    renderNat_val n]

/-- Hex digit characters decode to their value. -/
theorem hexVal_hexDigitCh (k : Nat) (h : k < 16) : hexVal (hexDigitCh k) = some k := by
  have hall : ∀ m, m < 16 → hexVal (hexDigitCh m) = some m := by decide
  exact hall k h

/-- Decoding the hex digits `00xy` of a control character. -/
theorem decodeHex4_00 (hc3 hc4 : Char) (v3 v4 : Nat)
    (h3 : hexVal hc3 = some v3) (h4 : hexVal hc4 = some v4) :
    decodeHex4 '0' '0' hc3 hc4 =
      some (Char.ofNat (0 * 4096 + 0 * 256 + v3 * 16 + v4)) := by
  unfold decodeHex4
  rw [h3, h4]
  rfl

/-- Unfolding of the string-body reader on an unescaped ordinary character. -/
theorem parseStrBody_other {c : Char} (h1 : c ≠ '"') (h2 : c ≠ '\\') (rest : List Char) :
    parseStrBody (c :: rest) = (parseStrBody rest).map (fun p => (c :: p.1, p.2)) := by
  show (if c = '"' then some ([], rest)
        else if c = '\\' then parseStrEsc rest
        else (parseStrBody rest).map (fun p => (c :: p.1, p.2))) = _
  rw [if_neg h1, if_neg h2]

/-- Reading back an escaped string body stops at the closing quote. -/
theorem parseStrBody_escape : ∀ (l rest : List Char),
    parseStrBody (l.flatMap escCh ++ '"' :: rest) = some (l, rest) := by
  intro l
  induction l with
  | nil =>
    intro rest
    rw [List.flatMap_nil, List.nil_append]
    rfl
  | cons c l' IH =>
    intro rest
    rw [List.flatMap_cons]
    by_cases h1 : c = '"'
    · subst h1
      show (parseStrBody (l'.flatMap escCh ++ '"' :: rest)).map
          (fun p => ('"' :: p.1, p.2)) = _
      rw [IH rest]
      rfl
    · by_cases h2 : c = '\\'
      · subst h2
        show (parseStrBody (l'.flatMap escCh ++ '"' :: rest)).map
            (fun p => ('\\' :: p.1, p.2)) = _
        rw [IH rest]
        rfl
      · by_cases h3 : c = '\n'
        · subst h3
          show (parseStrBody (l'.flatMap escCh ++ '"' :: rest)).map
              (fun p => ('\n' :: p.1, p.2)) = _
          rw [IH rest]
          rfl
        · by_cases h4 : c = '\x0d'
          · subst h4
            show (parseStrBody (l'.flatMap escCh ++ '"' :: rest)).map
                (fun p => ('\x0d' :: p.1, p.2)) = _
            rw [IH rest]
            rfl
          · by_cases h5 : c = '\t'
            · subst h5
              show (parseStrBody (l'.flatMap escCh ++ '"' :: rest)).map
                  (fun p => ('\t' :: p.1, p.2)) = _
              rw [IH rest]
              rfl
            · by_cases h6 : c = Char.ofNat 8
              · subst h6
                show (parseStrBody (l'.flatMap escCh ++ '"' :: rest)).map
                    (fun p => (Char.ofNat 8 :: p.1, p.2)) = _
                rw [IH rest]
                rfl
              · by_cases h7 : c = Char.ofNat 12
                · subst h7
                  show (parseStrBody (l'.flatMap escCh ++ '"' :: rest)).map
                      (fun p => (Char.ofNat 12 :: p.1, p.2)) = _
                  rw [IH rest]
                  rfl
                · by_cases h8 : c.toNat < 32
                  · rw [show escCh c = ['\\', 'u', '0', '0', hexDigitCh (c.toNat / 16),
                        hexDigitCh (c.toNat % 16)] from by
                      unfold escCh
                      rw [if_neg h1, if_neg h2, if_neg h3, if_neg h4, if_neg h5, if_neg h6,
                          if_neg h7, if_pos h8]]
                    simp only [List.cons_append, List.nil_append]
                    show (decodeHex4 '0' '0' (hexDigitCh (c.toNat / 16))
                        (hexDigitCh (c.toNat % 16))).bind
                      (fun ch => (parseStrBody (l'.flatMap escCh ++ '"' :: rest)).map
                        (fun p => (ch :: p.1, p.2))) = _
                    rw [decodeHex4_00 _ _ _ _ (hexVal_hexDigitCh (c.toNat / 16) (by omega))
                        (hexVal_hexDigitCh (c.toNat % 16) (by omega)), IH rest]
                    show some (Char.ofNat (0 * 4096 + 0 * 256 + c.toNat / 16 * 16 +
                        c.toNat % 16) :: l', rest) = _
                    rw [show 0 * 4096 + 0 * 256 + c.toNat / 16 * 16 + c.toNat % 16 = c.toNat from
                          by omega,
                        Char.ofNat_toNat]
                  · rw [show escCh c = [c] from by
                      unfold escCh
                      rw [if_neg h1, if_neg h2, if_neg h3, if_neg h4, if_neg h5, if_neg h6,
                          if_neg h7, if_neg h8],
                      List.singleton_append, List.cons_append, parseStrBody_other h1 h2,
                      IH rest]
                    rfl

/-- Skipping JSON whitespace leaves a list starting with a non-whitespace
character unchanged. -/
theorem skipJWS_cons {c : Char} (h : isJWSCh c = false) (l : List Char) :
    skipJWS (c :: l) = c :: l := by
  unfold skipJWS
  rw [List.dropWhile_cons_of_neg
    (by intro hcon; rw [h] at hcon; exact Bool.false_ne_true hcon)]

/-- Unfolding of the fuelled value reader on input starting with a
non-whitespace character. -/
theorem parseVal_cons (f : Nat) (c : Char) (cs : List Char) (hws : isJWSCh c = false) :
    parseVal (f + 1) (c :: cs) =
      (if c = '{' then
        if (skipJWS cs).head? = some '}' then some (Json.obj .nil, (skipJWS cs).tail)
        else (parseFields f (skipJWS cs)).map (fun p => (Json.obj p.1, p.2))
      else if c = '[' then
        if (skipJWS cs).head? = some ']' then some (Json.arr .nil, (skipJWS cs).tail)
        else (parseItems f (skipJWS cs)).map (fun p => (Json.arr p.1, p.2))
      else if c = '"' then
        (parseStrBody cs).map (fun p => (Json.str (String.mk p.1), p.2))
      else if c = 't' then
        if "rue".data.isPrefixOf cs then some (Json.bool true, cs.drop 3) else none
      else if c = 'f' then
        if "alse".data.isPrefixOf cs then some (Json.bool false, cs.drop 4) else none
      else if c = 'n' then
        if "ull".data.isPrefixOf cs then some (Json.null, cs.drop 3) else none
      else if c = '-' then
        cs.head?.bind (fun d =>
          if d.isDigit then
            some (Json.num (-((parseNatLoop 0 cs).1 : Int)), (parseNatLoop 0 cs).2)
          else none)
      else if c.isDigit then
        some (Json.num ((parseNatLoop 0 (c :: cs)).1 : Int), (parseNatLoop 0 (c :: cs)).2)
      else none) := by
  unfold parseVal
  rw [skipJWS_cons hws]

/-- Every rendered JSON value starts with a non-whitespace character that is
not a closing bracket. -/
theorem renderJ_head : ∀ J : Json, ∃ c tl, renderJ J = c :: tl ∧
    isJWSCh c = false ∧ c ≠ ']' ∧ c ≠ '}' := by
  intro J
  cases J with
  | null => exact ⟨'n', "ull".data, by decide, by decide, by decide, by decide⟩
  | bool b =>
    cases b with
    | true => exact ⟨'t', "rue".data, by decide, by decide, by decide, by decide⟩
    | false => exact ⟨'f', "alse".data, by decide, by decide, by decide, by decide⟩
  | num n =>
    rw [show renderJ (.num n) = renderInt n from rfl]
    unfold renderInt
    by_cases hn : n < 0
    · rw [if_pos hn]
      exact ⟨'-', renderNat n.natAbs, rfl, by decide, by decide, by decide⟩
    · rw [if_neg hn]
      obtain ⟨k, tl, hk, hcons⟩ := renderNat_cons n.natAbs
      obtain ⟨q1, _, _, _, _, _, _, _, _, q10, q11, _, _⟩ := digitCh_ne k hk
      rw [hcons]
      exact ⟨digitCh k, tl, rfl, q1, q11, q10⟩
  | str s =>
    exact ⟨'"', s.data.flatMap escCh ++ ['"'], rfl, by decide, by decide, by decide⟩
  | arr xs =>
    exact ⟨'[', renderItems xs ++ [']'], rfl, by decide, by decide, by decide⟩
  | obj kvs =>
    exact ⟨'{', renderFields kvs ++ ['}'], rfl, by decide, by decide, by decide⟩

/-- Rendered non-empty array elements start with a non-whitespace character
that is not a closing bracket. -/
theorem renderItems_head (v : Json) (tl : JItems) : ∃ c t2,
    renderItems (.cons v tl) = c :: t2 ∧ isJWSCh c = false ∧ c ≠ ']' ∧ c ≠ '}' := by
  obtain ⟨c, t, h, hws, h1, h2⟩ := renderJ_head v
  cases tl with
  | nil =>
    rw [show renderItems (.cons v .nil) = renderJ v from rfl, h]
    exact ⟨c, t, rfl, hws, h1, h2⟩
  | cons y tl' =>
    rw [show renderItems (.cons v (.cons y tl')) =
        renderJ v ++ ',' :: renderItems (.cons y tl') from rfl, h, List.cons_append]
    exact ⟨c, t ++ ',' :: renderItems (.cons y tl'), rfl, hws, h1, h2⟩

/-- Rendered non-empty object members start with the quote of the first key. -/
theorem renderFields_head (k : String) (v : Json) (tl : JFields) : ∃ t2,
    renderFields (.cons k v tl) = '"' :: t2 := by
  cases tl with
  | nil => exact ⟨(k.data.flatMap escCh ++ ['"']) ++ ':' :: renderJ v, rfl⟩
  | cons k2 v2 tl' =>
    exact ⟨((k.data.flatMap escCh ++ ['"']) ++ ':' :: renderJ v) ++
      ',' :: renderFields (.cons k2 v2 tl'), rfl⟩

/-- The fuel measure of a value is positive. -/
theorem fuelV_pos : ∀ J : Json, 1 ≤ fuelV J := by
  intro J
  cases J with
  | null => exact Nat.le_refl 1
  | bool b => exact Nat.le_refl 1
  | num n => exact Nat.le_refl 1
  | str s => exact Nat.le_refl 1
  | arr xs => exact Nat.le_add_left 1 (fuelI xs)
  | obj kvs => exact Nat.le_add_left 1 (fuelF kvs)

/-- A list with a non-digit head satisfies the reader's boundary condition. -/
theorem head_cons_nondigit (d : Char) (hd : d.isDigit = false) (X : List Char) :
    ∀ c, (d :: X).head? = some c → c.isDigit = false := by
  intro c hc
  rw [show ((d :: X : List Char)).head? = some d from rfl] at hc
  rw [← Option.some.inj hc]
  exact hd

/-- Round trip of the recursive-descent reader against the renderer: with
enough fuel, reading a rendered value (followed by a non-digit boundary)
returns the value, and likewise for rendered array elements and object
members up to their closing bracket. -/
theorem parse_render_all : ∀ fuel : Nat,
    (∀ (J : Json) (rest : List Char), fuelV J ≤ fuel →
      (∀ c, rest.head? = some c → c.isDigit = false) →
      parseVal fuel (renderJ J ++ rest) = some (J, rest)) ∧
    (∀ (v : Json) (tl : JItems) (rest : List Char), fuelI (.cons v tl) ≤ fuel →
      parseItems fuel (renderItems (.cons v tl) ++ ']' :: rest) = some (.cons v tl, rest)) ∧
    (∀ (k : String) (v : Json) (tl : JFields) (rest : List Char), fuelF (.cons k v tl) ≤ fuel →
      parseFields fuel (renderFields (.cons k v tl) ++ '}' :: rest) = some (.cons k v tl, rest)) := by
  intro fuel
  induction fuel with
  | zero =>
    refine ⟨?_, ?_, ?_⟩
    · intro J rest hfl _
      exact absurd (Nat.le_trans (fuelV_pos J) hfl) (by omega)
    · intro v tl rest hfl
      rw [show fuelI (.cons v tl) = max (fuelV v) (fuelI tl) + 1 from rfl] at hfl
      exact absurd hfl (by omega)
    · intro k v tl rest hfl
      rw [show fuelF (.cons k v tl) = max (fuelV v) (fuelF tl) + 1 from rfl] at hfl
      exact absurd hfl (by omega)
  | succ f IH =>
    obtain ⟨IHv, IHi, IHf⟩ := IH
    refine ⟨?_, ?_, ?_⟩
    · intro J rest hfl hrest
      cases J with
      | null =>
        rw [show renderJ .null = 'n' :: "ull".data from by decide, List.cons_append,
          parseVal_cons f 'n' _ (by decide),
          if_neg (by decide : ¬('n' = '{')), if_neg (by decide : ¬('n' = '[')),
          if_neg (by decide : ¬('n' = '"')), if_neg (by decide : ¬('n' = 't')),
          if_neg (by decide : ¬('n' = 'f')), if_pos (rfl : 'n' = 'n'),
          if_pos (isPrefixOf_append_self "ull".data rest),
          show (3 : Nat) = ("ull".data : List Char).length from by decide,
          List.drop_left]
      | bool b =>
        cases b with
        | true =>
          rw [show renderJ (.bool true) = 't' :: "rue".data from by decide, List.cons_append,
            parseVal_cons f 't' _ (by decide),
            if_neg (by decide : ¬('t' = '{')), if_neg (by decide : ¬('t' = '[')),
            if_neg (by decide : ¬('t' = '"')), if_pos (rfl : 't' = 't'),
            if_pos (isPrefixOf_append_self "rue".data rest),
            show (3 : Nat) = ("rue".data : List Char).length from by decide,
            List.drop_left]
        | false =>
          rw [show renderJ (.bool false) = 'f' :: "alse".data from by decide, List.cons_append,
            parseVal_cons f 'f' _ (by decide),
            if_neg (by decide : ¬('f' = '{')), if_neg (by decide : ¬('f' = '[')),
            if_neg (by decide : ¬('f' = '"')), if_neg (by decide : ¬('f' = 't')),
            if_pos (rfl : 'f' = 'f'),
            if_pos (isPrefixOf_append_self "alse".data rest),
            show (4 : Nat) = ("alse".data : List Char).length from by decide,
            List.drop_left]
      | num n =>
        obtain ⟨k, tl, hk, hcons⟩ := renderNat_cons n.natAbs
        rcases Int.lt_or_le n 0 with hn | hn
        · rw [show renderJ (.num n) = renderInt n from rfl]
          unfold renderInt
          rw [if_pos hn, List.cons_append, parseVal_cons f '-' _ (by decide),
            if_neg (by decide : ¬('-' = '{')), if_neg (by decide : ¬('-' = '[')),
            if_neg (by decide : ¬('-' = '"')), if_neg (by decide : ¬('-' = 't')),
            if_neg (by decide : ¬('-' = 'f')), if_neg (by decide : ¬('-' = 'n')),
            if_pos (rfl : '-' = '-'),
            hcons, List.cons_append, List.head?_cons]
          simp only [Option.some_bind]
          rw [if_pos (digitCh_isDigit k hk), ← List.cons_append, ← hcons,
            parseNat_renderNat n.natAbs rest (fun c hc => hrest c (Option.mem_def.mp hc))]
          show some (Json.num (-((n.natAbs : Nat) : Int)), rest) = some (Json.num n, rest)
          rw [show (-((n.natAbs : Nat) : Int)) = n from by omega]
        · rw [show renderJ (.num n) = renderInt n from rfl]
          unfold renderInt
          obtain ⟨q1, _, q3, q4, q5, q6, q7, q8, q9, _, _, _, _⟩ := digitCh_ne k hk
          rw [if_neg (by omega : ¬ n < 0), hcons, List.cons_append,
            parseVal_cons f (digitCh k) _ q1,
            if_neg q3, if_neg q4, if_neg q5, if_neg q6, if_neg q7, if_neg q8, if_neg q9,
            if_pos (digitCh_isDigit k hk), ← List.cons_append, ← hcons,
            parseNat_renderNat n.natAbs rest (fun c hc => hrest c (Option.mem_def.mp hc))]
          show some (Json.num ((n.natAbs : Nat) : Int), rest) = some (Json.num n, rest)
          rw [show (((n.natAbs : Nat)) : Int) = n from by omega]
      | str s =>
        rw [show renderJ (.str s) = '"' :: (s.data.flatMap escCh ++ ['"']) from rfl,
          List.cons_append, List.append_assoc, List.singleton_append,
          parseVal_cons f '"' _ (by decide),
          if_neg (by decide : ¬('"' = '{')), if_neg (by decide : ¬('"' = '[')),
          if_pos (rfl : '"' = '"'),
          parseStrBody_escape s.data rest]
        rfl
      | arr xs =>
        cases xs with
        | nil =>
          rw [show renderJ (.arr .nil) = '[' :: ']' :: [] from by decide,
            List.cons_append, List.cons_append, List.nil_append,
            parseVal_cons f '[' _ (by decide),
            if_neg (by decide : ¬('[' = '{')), if_pos (rfl : '[' = '['),
            skipJWS_cons (by decide : isJWSCh ']' = false), List.head?_cons,
            if_pos (rfl : some ']' = some ']')]
          rfl
        | cons y tl =>
          have hfl2 : fuelI (.cons y tl) ≤ f := by
            rw [show fuelV (.arr (.cons y tl)) = fuelI (.cons y tl) + 1 from rfl] at hfl
            omega
          obtain ⟨c, t2, hre, hws, hne1, hne2⟩ := renderItems_head y tl
          rw [show renderJ (.arr (.cons y tl)) =
              '[' :: (renderItems (.cons y tl) ++ [']']) from rfl,
            List.cons_append, List.append_assoc, List.singleton_append,
            parseVal_cons f '[' _ (by decide),
            if_neg (by decide : ¬('[' = '{')), if_pos (rfl : '[' = '['),
            hre, List.cons_append, skipJWS_cons hws, List.head?_cons,
            if_neg (show ¬(some c = some ']') from fun hcon => hne1 (Option.some.inj hcon)),
            ← List.cons_append, ← hre,
            IHi y tl rest hfl2]
          rfl
      | obj kvs =>
        cases kvs with
        | nil =>
          rw [show renderJ (.obj .nil) = '{' :: '}' :: [] from by decide,
            List.cons_append, List.cons_append, List.nil_append,
            parseVal_cons f '{' _ (by decide),
            if_pos (rfl : '{' = '{'),
            skipJWS_cons (by decide : isJWSCh '}' = false), List.head?_cons,
            if_pos (rfl : some '}' = some '}')]
          rfl
        | cons k v tl =>
          have hfl2 : fuelF (.cons k v tl) ≤ f := by
            rw [show fuelV (.obj (.cons k v tl)) = fuelF (.cons k v tl) + 1 from rfl] at hfl
            omega
          obtain ⟨t2, hre⟩ := renderFields_head k v tl
          rw [show renderJ (.obj (.cons k v tl)) =
              '{' :: (renderFields (.cons k v tl) ++ ['}']) from rfl,
            List.cons_append, List.append_assoc, List.singleton_append,
            parseVal_cons f '{' _ (by decide),
            if_pos (rfl : '{' = '{'),
            hre, List.cons_append, skipJWS_cons (by decide : isJWSCh '"' = false),
            List.head?_cons,
            if_neg (by decide : ¬((some '"' : Option Char) = some '}')),
            ← List.cons_append, ← hre,
            IHf k v tl rest hfl2]
          rfl
    · intro v tl rest hfl
      have hv : fuelV v ≤ f := by
        rw [show fuelI (.cons v tl) = max (fuelV v) (fuelI tl) + 1 from rfl] at hfl
        omega
      cases tl with
      | nil =>
        rw [show renderItems (.cons v .nil) = renderJ v from rfl]
        unfold parseItems
        rw [IHv v (']' :: rest) hv (head_cons_nondigit ']' (by decide) rest)]
        simp only [Option.some_bind]
        rw [skipJWS_cons (by decide : isJWSCh ']' = false), List.head?_cons,
          if_neg (by decide : ¬((some ']' : Option Char) = some ',')),
          if_pos (rfl : (some ']' : Option Char) = some ']'), List.tail_cons]
      | cons y tl2 =>
        have hi : fuelI (.cons y tl2) ≤ f := by
          rw [show fuelI (.cons v (.cons y tl2)) =
              max (fuelV v) (fuelI (.cons y tl2)) + 1 from rfl] at hfl
          omega
        rw [show renderItems (.cons v (.cons y tl2)) =
            renderJ v ++ ',' :: renderItems (.cons y tl2) from rfl,
          List.append_assoc, List.cons_append]
        unfold parseItems
        rw [IHv v (',' :: (renderItems (.cons y tl2) ++ ']' :: rest)) hv
            (head_cons_nondigit ',' (by decide) _)]
        simp only [Option.some_bind]
        rw [skipJWS_cons (by decide : isJWSCh ',' = false), List.head?_cons,
          if_pos (rfl : (some ',' : Option Char) = some ','), List.tail_cons,
          IHi y tl2 rest hi]
        rfl
    · intro k v tl rest hfl
      have hv : fuelV v ≤ f := by
        rw [show fuelF (.cons k v tl) = max (fuelV v) (fuelF tl) + 1 from rfl] at hfl
        omega
      cases tl with
      | nil =>
        rw [show renderFields (.cons k v .nil) =
            '"' :: ((k.data.flatMap escCh ++ ['"']) ++ ':' :: renderJ v) from rfl,
          List.cons_append, List.append_assoc, List.append_assoc,
          List.singleton_append, List.cons_append]
        unfold parseFields
        rw [skipJWS_cons (by decide : isJWSCh '"' = false)]
        show (if ('"' : Char) = '"' then
            (parseStrBody (k.data.flatMap escCh ++
              '"' :: (':' :: (renderJ v ++ '}' :: rest)))).bind (fun kr =>
              if (skipJWS kr.2).head? = some ':' then
                (parseVal f (skipJWS kr.2).tail).bind (fun vr =>
                  if (skipJWS vr.2).head? = some ',' then
                    (parseFields f (skipJWS vr.2).tail).map
                      (fun p => (JFields.cons (String.mk kr.1) vr.1 p.1, p.2))
                  else if (skipJWS vr.2).head? = some '}' then
                    some (JFields.cons (String.mk kr.1) vr.1 .nil, (skipJWS vr.2).tail)
                  else none)
              else none)
          else none) = _
        rw [if_pos (rfl : ('"' : Char) = '"'), parseStrBody_escape k.data _]
        simp only [Option.some_bind]
        rw [skipJWS_cons (by decide : isJWSCh ':' = false), List.head?_cons,
          if_pos (rfl : (some ':' : Option Char) = some ':'), List.tail_cons,
          IHv v ('}' :: rest) hv (head_cons_nondigit '}' (by decide) rest)]
        simp only [Option.some_bind]
        rw [skipJWS_cons (by decide : isJWSCh '}' = false), List.head?_cons,
          if_neg (by decide : ¬((some '}' : Option Char) = some ',')),
          if_pos (rfl : (some '}' : Option Char) = some '}'), List.tail_cons]
      | cons k2 v2 tl2 =>
        have hf2 : fuelF (.cons k2 v2 tl2) ≤ f := by
          rw [show fuelF (.cons k v (.cons k2 v2 tl2)) =
              max (fuelV v) (fuelF (.cons k2 v2 tl2)) + 1 from rfl] at hfl
          omega
        rw [show renderFields (.cons k v (.cons k2 v2 tl2)) =
            '"' :: (((k.data.flatMap escCh ++ ['"']) ++ ':' :: renderJ v) ++
              ',' :: renderFields (.cons k2 v2 tl2)) from rfl,
          List.cons_append, List.append_assoc, List.append_assoc, List.append_assoc,
          List.singleton_append, List.cons_append, List.cons_append]
        unfold parseFields
        rw [skipJWS_cons (by decide : isJWSCh '"' = false)]
        show (if ('"' : Char) = '"' then
            (parseStrBody (k.data.flatMap escCh ++
              '"' :: (':' :: (renderJ v ++
                ',' :: (renderFields (.cons k2 v2 tl2) ++ '}' :: rest))))).bind (fun kr =>
              if (skipJWS kr.2).head? = some ':' then
                (parseVal f (skipJWS kr.2).tail).bind (fun vr =>
                  if (skipJWS vr.2).head? = some ',' then
                    (parseFields f (skipJWS vr.2).tail).map
                      (fun p => (JFields.cons (String.mk kr.1) vr.1 p.1, p.2))
                  else if (skipJWS vr.2).head? = some '}' then
                    some (JFields.cons (String.mk kr.1) vr.1 .nil, (skipJWS vr.2).tail)
                  else none)
              else none)
          else none) = _
        rw [if_pos (rfl : ('"' : Char) = '"'), parseStrBody_escape k.data _]
        simp only [Option.some_bind]
        rw [skipJWS_cons (by decide : isJWSCh ':' = false), List.head?_cons,
          if_pos (rfl : (some ':' : Option Char) = some ':'), List.tail_cons,
          IHv v (',' :: (renderFields (.cons k2 v2 tl2) ++ '}' :: rest)) hv
            (head_cons_nondigit ',' (by decide) _)]
        simp only [Option.some_bind]
        rw [skipJWS_cons (by decide : isJWSCh ',' = false), List.head?_cons,
          if_pos (rfl : (some ',' : Option Char) = some ','), List.tail_cons,
          IHf k2 v2 tl2 rest hf2]
        rfl

/-- Every rendered JSON value is non-empty. -/
theorem renderJ_len_pos (J : Json) : 1 ≤ (renderJ J).length := by
  obtain ⟨c, tl, h, _, _, _⟩ := renderJ_head J
  rw [h, List.length_cons]
  exact Nat.succ_le_succ (Nat.zero_le _)

mutual
theorem fuelV_le_render : ∀ J : Json, fuelV J ≤ (renderJ J).length
  | .null => by decide
  | .bool true => by decide
  | .bool false => by decide
  | .num n => renderJ_len_pos (.num n)
  | .str s => renderJ_len_pos (.str s)
  | .arr xs => by
    have h := fuelI_le_render xs
    rw [show fuelV (.arr xs) = fuelI xs + 1 from rfl,
      show renderJ (.arr xs) = '[' :: (renderItems xs ++ [']']) from rfl,
      List.length_cons, List.length_append, List.length_singleton]
    omega
  | .obj kvs => by
    have h := fuelF_le_render kvs
    rw [show fuelV (.obj kvs) = fuelF kvs + 1 from rfl,
      show renderJ (.obj kvs) = '{' :: (renderFields kvs ++ ['}']) from rfl,
      List.length_cons, List.length_append, List.length_singleton]
    omega
theorem fuelI_le_render : ∀ xs : JItems, fuelI xs ≤ (renderItems xs).length + 1
  | .nil => Nat.zero_le _
  | .cons v .nil => by
    have hv := fuelV_le_render v
    rw [show fuelI (.cons v .nil) = max (fuelV v) (fuelI JItems.nil) + 1 from rfl,
      show fuelI JItems.nil = 0 from rfl,
      show renderItems (.cons v .nil) = renderJ v from rfl]
    omega
  | .cons v (.cons y tl2) => by
    have hv := fuelV_le_render v
    have hi := fuelI_le_render (.cons y tl2)
    have hp := renderJ_len_pos v
    rw [show fuelI (.cons v (.cons y tl2)) =
        max (fuelV v) (fuelI (.cons y tl2)) + 1 from rfl,
      show renderItems (.cons v (.cons y tl2)) =
        renderJ v ++ ',' :: renderItems (.cons y tl2) from rfl,
      List.length_append, List.length_cons]
    omega
theorem fuelF_le_render : ∀ kvs : JFields, fuelF kvs ≤ (renderFields kvs).length + 1
  | .nil => Nat.zero_le _
  | .cons k v .nil => by
    have hv := fuelV_le_render v
    rw [show fuelF (.cons k v .nil) = max (fuelV v) (fuelF JFields.nil) + 1 from rfl,
      show fuelF JFields.nil = 0 from rfl,
      show renderFields (.cons k v .nil) = renderStr k ++ ':' :: renderJ v from rfl,
      List.length_append, List.length_cons]
    omega
  | .cons k v (.cons k2 v2 tl2) => by
    have hv := fuelV_le_render v
    have hf := fuelF_le_render (.cons k2 v2 tl2)
    rw [show fuelF (.cons k v (.cons k2 v2 tl2)) =
        max (fuelV v) (fuelF (.cons k2 v2 tl2)) + 1 from rfl,
      show renderFields (.cons k v (.cons k2 v2 tl2)) =
        (renderStr k ++ ':' :: renderJ v) ++ ',' :: renderFields (.cons k2 v2 tl2) from rfl,
      List.length_append, List.length_append, List.length_cons, List.length_cons]
    omega
end

theorem jsonParseL_render (J : Json) : jsonParseL (renderJ J) = some J := by
  have hV := (parse_render_all ((renderJ J).length + 1)).1 J []
    (by have := fuelV_le_render J; omega)
    (fun c hc => Option.noConfusion hc)
  rw [List.append_nil] at hV
  unfold jsonParseL
  rw [hV]
  rfl

/-- A candidate prefix whose head differs from the list head is not a prefix. -/
theorem isPrefixOf_head_ne {q c : Char} (p' X : List Char) (hne : q ≠ c) :
    (q :: p').isPrefixOf (c :: X) = false := by
  cases hp : (q :: p').isPrefixOf (c :: X) with
  | false => rfl
  | true =>
    obtain ⟨t, ht⟩ := (isPrefixOf_ex (q :: p') (c :: X)).mp hp
    rw [List.cons_append] at ht
    exact absurd (List.cons.inj ht).1.symm hne

/-- When the group content (up to its closing brace) contains no triple
backtick, the lazy close-check of the fence regex fails at every position
inside the group. -/
theorem no_fence_check : ∀ (X : List Char), ∀ (tail : List Char),
    isSubstr "```".data (X ++ ['}']) = false →
    "```".data.isPrefixOf
      ((X ++ '}' :: '\n' :: '`' :: '`' :: '`' :: tail).dropWhile isSpaceCh) = false := by
  intro X
  induction X with
  | nil =>
    intro tail _
    rw [List.nil_append, List.dropWhile_cons_of_neg (by decide)]
    cases hp : ("```".data.isPrefixOf ('}' :: '\n' :: '`' :: '`' :: '`' :: tail)) with
    | false => rfl
    | true =>
      obtain ⟨t, ht⟩ := (isPrefixOf_ex _ _).mp hp
      rw [show ("```".data : List Char) = ['`', '`', '`'] from by decide] at ht
      exact absurd (List.cons.inj ht).1 (by decide)
  | cons x X' IH =>
    intro tail h
    rw [List.cons_append] at h
    have hd := isSubstr_cons_false h
    rw [List.cons_append]
    by_cases hx : isSpaceCh x = true
    · rw [List.dropWhile_cons_of_pos hx]
      exact IH tail hd.2
    · rw [List.dropWhile_cons_of_neg
        (by intro hcon; exact hx hcon)]
      cases hp : ("```".data.isPrefixOf
          (x :: (X' ++ '}' :: '\n' :: '`' :: '`' :: '`' :: tail))) with
      | false => rfl
      | true =>
        obtain ⟨t, ht⟩ := (isPrefixOf_ex _ _).mp hp
        rw [show ("```".data : List Char) = ['`', '`', '`'] from by decide] at ht
        obtain ⟨hx1, ht2⟩ := List.cons.inj ht
        cases X' with
        | nil =>
          rw [List.nil_append] at ht2
          exact absurd (List.cons.inj ht2).1 (by decide)
        | cons y X'' =>
          rw [List.cons_append] at ht2
          obtain ⟨hy, ht3⟩ := List.cons.inj ht2
          cases X'' with
          | nil =>
            rw [List.nil_append] at ht3
            exact absurd (List.cons.inj ht3).1 (by decide)
          | cons z X3 =>
            rw [List.cons_append] at ht3
            obtain ⟨hz, _⟩ := List.cons.inj ht3
            refine absurd hd.1 ?_
            rw [show ("```".data : List Char) = ['`', '`', '`'] from by decide, hx1, hy, hz]
            intro hcon
            have hpre : (['`', '`', '`'] : List Char).isPrefixOf
                ('`' :: (('`' :: '`' :: X3) ++ ['}'])) = true :=
              (isPrefixOf_ex _ _).mpr ⟨X3 ++ ['}'], rfl⟩
            rw [hpre] at hcon
            exact Bool.noConfusion hcon

/-- The lazy brace-group reader stops exactly at the closing brace that is
followed by a newline and the closing backticks, provided the group content
contains no triple backtick. -/
theorem lazyGroup_run : ∀ (X : List Char), ∀ (tail : List Char),
    isSubstr "```".data (X ++ ['}']) = false →
    lazyGroup (X ++ '}' :: '\n' :: '`' :: '`' :: '`' :: tail) = some (X ++ ['}']) := by
  intro X
  induction X with
  | nil =>
    intro tail _
    rw [List.nil_append]
    show (if ('}' = '}' && "```".data.isPrefixOf
          (('\n' :: '`' :: '`' :: '`' :: tail).dropWhile isSpaceCh)) = true
        then some ['}']
        else (lazyGroup ('\n' :: '`' :: '`' :: '`' :: tail)).map (fun g => '}' :: g)) = _
    rw [if_pos (show ('}' = '}' && "```".data.isPrefixOf
        (('\n' :: '`' :: '`' :: '`' :: tail).dropWhile isSpaceCh)) = true from by
      rw [List.dropWhile_cons_of_pos (by decide : isSpaceCh '\n' = true),
        List.dropWhile_cons_of_neg (by decide),
        show ('`' :: '`' :: '`' :: tail : List Char) = "```".data ++ tail from by
          rw [show ("```".data : List Char) = ['`', '`', '`'] from by decide]
          rfl,
        isPrefixOf_append_self]
      decide)]
    rfl
  | cons x X' IH =>
    intro tail h
    rw [List.cons_append] at h ⊢
    have hd := isSubstr_cons_false h
    show (if (x = '}' && "```".data.isPrefixOf
          ((X' ++ '}' :: '\n' :: '`' :: '`' :: '`' :: tail).dropWhile isSpaceCh)) = true
        then some ['}']
        else (lazyGroup (X' ++ '}' :: '\n' :: '`' :: '`' :: '`' :: tail)).map
          (fun g => x :: g)) = _
    rw [no_fence_check X' tail hd.2, Bool.and_false,
      if_neg (by decide : ¬((false : Bool) = true)),
      IH tail hd.2]
    rfl

/-- Behaviour of the post-tag fence matcher on a newline followed by a
rendered object and the closing fence. -/
theorem afterTag_render (kvs : JFields)
    (hnb : isSubstr "```".data (renderJ (Json.obj kvs)) = false) :
    afterTag ('\n' :: (renderJ (Json.obj kvs) ++ '\n' :: '`' :: '`' :: '`' :: [])) =
      some (renderJ (Json.obj kvs)) := by
  have hsub : isSubstr "```".data (renderFields kvs ++ ['}']) = false := by
    rw [show renderJ (Json.obj kvs) = '{' :: (renderFields kvs ++ ['}']) from rfl] at hnb
    exact (isSubstr_cons_false hnb).2
  rw [show renderJ (Json.obj kvs) = '{' :: (renderFields kvs ++ ['}']) from rfl,
    List.cons_append]
  unfold afterTag
  rw [List.dropWhile_cons_of_pos (by decide : isSpaceCh '\n' = true),
    List.dropWhile_cons_of_neg (by decide)]
  show (if ('{' : Char) = '{' then
      (lazyGroup ((renderFields kvs ++ ['}']) ++ '\n' :: '`' :: '`' :: '`' :: [])).map
        (fun g => '{' :: g)
    else none) = _
  rw [if_pos (rfl : ('{' : Char) = '{'), List.append_assoc, List.singleton_append,
    lazyGroup_run (renderFields kvs) [] hsub]
  rfl

/-- Without a triple backtick in the text, the fence search fails. -/
theorem fenceSearch_none : ∀ cs : List Char, isSubstr "```".data cs = false →
    fenceSearch cs = none := by
  intro cs
  induction cs with
  | nil => intro _; rfl
  | cons c rest IH =>
    intro h
    have hd := isSubstr_cons_false h
    have hm : matchFenceAt (c :: rest) = none := by
      unfold matchFenceAt
      rw [if_neg (by intro hcon; rw [hd.1] at hcon; exact Bool.noConfusion hcon)]
    unfold fenceSearch
    rw [hm]
    exact IH hd.2

/-- Python `strip` leaves a text unchanged when both ends are non-whitespace. -/
theorem pyStripL_nostrip (c d : Char) (X : List Char)
    (hc : isSpaceCh c = false) (hd : isSpaceCh d = false) :
    pyStripL (c :: (X ++ [d])) = c :: (X ++ [d]) := by
  unfold pyStripL
  rw [List.dropWhile_cons_of_neg (by intro hcon; rw [hc] at hcon; exact Bool.noConfusion hcon),
    List.reverse_cons, List.reverse_append, List.reverse_singleton, List.singleton_append,
    List.cons_append,
    List.dropWhile_cons_of_neg (by intro hcon; rw [hd] at hcon; exact Bool.noConfusion hcon),
    List.reverse_cons, List.reverse_append, List.reverse_reverse, List.reverse_singleton,
    List.singleton_append, List.cons_append]

/-- The anchored fence matcher accepts a tagged fence around a rendered
object. -/
theorem matchFenceAt_tag (kvs : JFields)
    (hnb : isSubstr "```".data (renderJ (Json.obj kvs)) = false) :
    matchFenceAt ('`' :: '`' :: '`' :: 'j' :: 's' :: 'o' :: 'n' :: '\n' ::
        (renderJ (Json.obj kvs) ++ '\n' :: '`' :: '`' :: '`' :: [])) =
      some (renderJ (Json.obj kvs)) := by
  have hshape : ('`' :: '`' :: '`' :: 'j' :: 's' :: 'o' :: 'n' :: '\n' ::
      (renderJ (Json.obj kvs) ++ '\n' :: '`' :: '`' :: '`' :: []) : List Char) =
      "```".data ++ ('j' :: 's' :: 'o' :: 'n' :: '\n' ::
        (renderJ (Json.obj kvs) ++ '\n' :: '`' :: '`' :: '`' :: [])) := by
    rw [show ("```".data : List Char) = ['`', '`', '`'] from by decide]
    rfl
  rw [hshape]
  unfold matchFenceAt
  rw [if_pos (isPrefixOf_append_self "```".data _),
    show (3 : Nat) = ("```".data : List Char).length from by decide, List.drop_left]
  show (if "json".data.isPrefixOf ('j' :: 's' :: 'o' :: 'n' :: '\n' ::
      (renderJ (Json.obj kvs) ++ '\n' :: '`' :: '`' :: '`' :: [])) = true then
      (afterTag (('j' :: 's' :: 'o' :: 'n' :: '\n' ::
        (renderJ (Json.obj kvs) ++ '\n' :: '`' :: '`' :: '`' :: [])).drop 4)).orElse
        (fun _ => afterTag ('j' :: 's' :: 'o' :: 'n' :: '\n' ::
          (renderJ (Json.obj kvs) ++ '\n' :: '`' :: '`' :: '`' :: [])))
    else afterTag ('j' :: 's' :: 'o' :: 'n' :: '\n' ::
      (renderJ (Json.obj kvs) ++ '\n' :: '`' :: '`' :: '`' :: []))) = _
  rw [if_pos (show "json".data.isPrefixOf ('j' :: 's' :: 'o' :: 'n' :: '\n' ::
      (renderJ (Json.obj kvs) ++ '\n' :: '`' :: '`' :: '`' :: [])) = true from by
    rw [show ('j' :: 's' :: 'o' :: 'n' :: '\n' ::
        (renderJ (Json.obj kvs) ++ '\n' :: '`' :: '`' :: '`' :: []) : List Char) =
      "json".data ++ ('\n' :: (renderJ (Json.obj kvs) ++ '\n' :: '`' :: '`' :: '`' :: []))
      from by
        rw [show ("json".data : List Char) = ['j', 's', 'o', 'n'] from by decide]
        rfl]
    exact isPrefixOf_append_self "json".data _),
    show ('j' :: 's' :: 'o' :: 'n' :: '\n' ::
        (renderJ (Json.obj kvs) ++ '\n' :: '`' :: '`' :: '`' :: []) : List Char).drop 4 =
      '\n' :: (renderJ (Json.obj kvs) ++ '\n' :: '`' :: '`' :: '`' :: []) from rfl,
    afterTag_render kvs hnb]
  rfl

theorem matchFenceAt_untag (kvs : JFields)
    (hnb : isSubstr "```".data (renderJ (Json.obj kvs)) = false) :
    matchFenceAt ('`' :: '`' :: '`' :: '\n' ::
        (renderJ (Json.obj kvs) ++ '\n' :: '`' :: '`' :: '`' :: [])) =
      some (renderJ (Json.obj kvs)) := by
  have hshape : ('`' :: '`' :: '`' :: '\n' ::
      (renderJ (Json.obj kvs) ++ '\n' :: '`' :: '`' :: '`' :: []) : List Char) =
      "```".data ++ ('\n' ::
        (renderJ (Json.obj kvs) ++ '\n' :: '`' :: '`' :: '`' :: [])) := by
    rw [show ("```".data : List Char) = ['`', '`', '`'] from by decide]
    rfl
  rw [hshape]
  unfold matchFenceAt
  rw [if_pos (isPrefixOf_append_self "```".data _),
    show (3 : Nat) = ("```".data : List Char).length from by decide, List.drop_left]
  show (if "json".data.isPrefixOf ('\n' ::
      (renderJ (Json.obj kvs) ++ '\n' :: '`' :: '`' :: '`' :: [])) = true then
      (afterTag (('\n' ::
        (renderJ (Json.obj kvs) ++ '\n' :: '`' :: '`' :: '`' :: [])).drop 4)).orElse
        (fun _ => afterTag ('\n' ::
          (renderJ (Json.obj kvs) ++ '\n' :: '`' :: '`' :: '`' :: [])))
    else afterTag ('\n' ::
      (renderJ (Json.obj kvs) ++ '\n' :: '`' :: '`' :: '`' :: []))) = _
  rw [show ("json".data : List Char) = ['j', 's', 'o', 'n'] from by decide,
    isPrefixOf_head_ne ['s', 'o', 'n'] _ (by decide : 'j' ≠ '\n'),
    if_neg (by decide : ¬((false : Bool) = true))]
  exact afterTag_render kvs hnb

theorem extract_render_fenced (tagged : Bool) (kvs : JFields)
    (hnb : isSubstr "```".data (renderJ (Json.obj kvs)) = false) :
    extract_json_from_llm_output (wrapInFence tagged (Json.render (Json.obj kvs))) =
      some (Json.obj kvs) := by
  cases tagged with
  | true =>
    have hdata : (wrapInFence true (Json.render (Json.obj kvs))).data =
        '`' :: '`' :: '`' :: 'j' :: 's' :: 'o' :: 'n' :: '\n' ::
          (renderJ (Json.obj kvs) ++ '\n' :: '`' :: '`' :: '`' :: []) := by
      show (("```json\n" ++ Json.render (Json.obj kvs)) ++ "\n```").data = _
      rw [String.data_append, String.data_append,
        show ("```json\n".data : List Char) = ['`', '`', '`', 'j', 's', 'o', 'n', '\n']
          from by decide,
        show ("\n```".data : List Char) = ['\n', '`', '`', '`'] from by decide,
        show ((Json.render (Json.obj kvs)).data : List Char) = renderJ (Json.obj kvs)
          from rfl,
        List.append_assoc]
      rfl
    have hfs : fenceSearch ('`' :: '`' :: '`' :: 'j' :: 's' :: 'o' :: 'n' :: '\n' ::
        (renderJ (Json.obj kvs) ++ '\n' :: '`' :: '`' :: '`' :: [])) =
        some (renderJ (Json.obj kvs)) := by
      unfold fenceSearch
      rw [matchFenceAt_tag kvs hnb]
    unfold extract_json_from_llm_output
    rw [hdata, hfs]
    show jsonParseL (renderJ (Json.obj kvs)) = _
    rw [jsonParseL_render]
  | false =>
    have hdata : (wrapInFence false (Json.render (Json.obj kvs))).data =
        '`' :: '`' :: '`' :: '\n' ::
          (renderJ (Json.obj kvs) ++ '\n' :: '`' :: '`' :: '`' :: []) := by
      show (("```\n" ++ Json.render (Json.obj kvs)) ++ "\n```").data = _
      rw [String.data_append, String.data_append,
        show ("```\n".data : List Char) = ['`', '`', '`', '\n'] from by decide,
        show ("\n```".data : List Char) = ['\n', '`', '`', '`'] from by decide,
        show ((Json.render (Json.obj kvs)).data : List Char) = renderJ (Json.obj kvs)
          from rfl,
        List.append_assoc]
      rfl
    have hfs : fenceSearch ('`' :: '`' :: '`' :: '\n' ::
        (renderJ (Json.obj kvs) ++ '\n' :: '`' :: '`' :: '`' :: [])) =
        some (renderJ (Json.obj kvs)) := by
      unfold fenceSearch
      rw [matchFenceAt_untag kvs hnb]
    unfold extract_json_from_llm_output
    rw [hdata, hfs]
    show jsonParseL (renderJ (Json.obj kvs)) = _
    rw [jsonParseL_render]

theorem extract_render_plain (kvs : JFields)
    (hnb : isSubstr "```".data (renderJ (Json.obj kvs)) = false) :
    extract_json_from_llm_output (Json.render (Json.obj kvs)) = some (Json.obj kvs) := by
  unfold extract_json_from_llm_output
  rw [show ((Json.render (Json.obj kvs)).data : List Char) = renderJ (Json.obj kvs) from rfl,
    fenceSearch_none _ hnb]
  show jsonParseL (pyStripL (renderJ (Json.obj kvs))) = _
  rw [show renderJ (Json.obj kvs) = '{' :: (renderFields kvs ++ ['}']) from rfl,
    pyStripL_nostrip '{' '}' (renderFields kvs) (by decide) (by decide),
    ← show renderJ (Json.obj kvs) = '{' :: (renderFields kvs ++ ['}']) from rfl,
    jsonParseL_render]

/-- C2: for every JSON object whose compact rendering contains no triple
backtick, the extraction helper recovers the object from its rendering wrapped
in a fenced code block (tagged `json` or untagged) and from the plain
rendering; the original claim, quantified over every valid JSON object, fails
on an object whose rendering contains backticks. -/
theorem extract_json_round_trip (kvs : JFields)
    (hnb : isSubstr "```".data (renderJ (Json.obj kvs)) = false) :
    extract_json_from_llm_output (wrapInFence true (Json.render (Json.obj kvs))) =
        some (Json.obj kvs) ∧
    extract_json_from_llm_output (wrapInFence false (Json.render (Json.obj kvs))) =
        some (Json.obj kvs) ∧
    extract_json_from_llm_output (Json.render (Json.obj kvs)) = some (Json.obj kvs) :=
  ⟨extract_render_fenced true kvs hnb, extract_render_fenced false kvs hnb,
    extract_render_plain kvs hnb⟩

/-- C2 counterexample: on the object rendering `\x7b"a": "``` \x7bb\x7d ```"\x7d`,
whose string value contains backticks, the fence regex matches the inner
`\x7bb\x7d` group, its parse fails, and the helper raises instead of returning
the object. -/
theorem extract_json_round_trip_counterexample :
    (extract_json_from_llm_output (Json.render jsonCounterexample)).isSome = false := by
  decide

/-- C2 witness: the amended round trip evaluated on `\x7b"a": 1\x7d`. -/
theorem extract_json_round_trip_witness :
    isSubstr "```".data (renderJ (Json.obj (.cons "a" (.num 1) .nil))) = false ∧
    (extract_json_from_llm_output
        (wrapInFence true (Json.render (Json.obj (.cons "a" (.num 1) .nil)))) =
      some (Json.obj (.cons "a" (.num 1) .nil)) ∧
    extract_json_from_llm_output
        (wrapInFence false (Json.render (Json.obj (.cons "a" (.num 1) .nil)))) =
      some (Json.obj (.cons "a" (.num 1) .nil)) ∧
    extract_json_from_llm_output (Json.render (Json.obj (.cons "a" (.num 1) .nil))) =
      some (Json.obj (.cons "a" (.num 1) .nil))) :=
  ⟨by decide, extract_json_round_trip (.cons "a" (.num 1) .nil) (by decide)⟩
